import Mathlib

/-!
ARMS motion-control core: regulator, slew limiter, settling detector, odometry

A shallow embedding of the control code of `src/ARMS/pid.cpp`,
`src/ARMS/chassis.cpp` and `src/greenhat/drive.cpp`.

* C++ `double` arithmetic is read over an arbitrary linearly ordered field `α`
  (the reals are one instance, the rationals an executable one).
* C++ `int` values are read as unbounded integers: the speeds, steps and
  encoder counts handled here are far from the 32-bit range, and signed
  overflow has no defined behaviour in the source language.
* Static and global variables become explicit state that every call takes and returns.
-/

namespace ARMS

/-! ## Regulator (`arms::pid::pid`, pid.cpp lines 31-47) -/

/-- Result of one call of `pid`: the returned speed together with the values
left in `*pe` and `*in` when the call returns. -/
structure PidResult (α : Type) where
  speed : α
  pe : α
  integ : α
  deriving DecidableEq, Repr

section Regulator

variable {α : Type} [LinearOrderedField α]

/-- The integral after the sign-change test of `pid` (pid.cpp lines 35-36):
`if ((*pe > 0 && error < 0) || (*pe < 0 && error > 0)) *in = 0;`. -/
def pidReset (error pe integ : α) : α :=
  if (pe > 0 ∧ error < 0) ∨ (pe < 0 ∧ error > 0) then 0 else integ

/-- The regulator `pid(error, pe, in, kp, ki, kd)` (pid.cpp lines 31-47).
`pe` and `integ` are the values of `*pe` and `*in` on entry. -/
def pid (error pe integ kp ki kd : α) : PidResult α :=
  let derivative := error - pe
  let in1 := pidReset error pe integ
  let speed := error * kp + in1 * ki + derivative * kd
  let in2 := if |speed| < 100 then in1 + error else in1
  { speed := speed, pe := error, integ := in2 }

/-- Two sequential calls of `pid` on the same `(pe, in)` state with the same
gains: the first with error `e1`, the second with error `e2`. The result is
that of the second call. -/
def pidTwice (e1 e2 pe integ kp ki kd : α) : PidResult α :=
  let r1 := pid e1 pe integ kp ki kd
  pid e2 r1.pe r1.integ kp ki kd

end Regulator

/-! ## Mode constants (chassis.cpp lines 10-12) -/

/-- The chassis mode `LINEAR` (`#define LINEAR 1`). -/
def LINEAR : Int := 1

/-- The chassis mode `DISABLE` (`#define DISABLE 0`). -/
def DISABLE : Int := 0

/-- The chassis mode `ANGULAR` (`#define ANGULAR -1`). -/
def ANGULAR : Int := -1

/-! ## Slew limiter (`chassis::slew`, chassis.cpp lines 154-176;
`greenhat::slew`, drive.cpp lines 77-98) -/

/-- The slew configuration globals set by `init`: `accel_step`, `deccel_step`,
`arc_step` and (chassis only) `min_speed`. -/
structure SlewConfig where
  accel_step : Int
  deccel_step : Int
  arc_step : Int
  min_speed : Int
  deriving DecidableEq, Repr

/-- Result of one call of `slew`: the returned value and the value left in the
static `lastSpeed`. -/
structure SlewResult where
  ret : Int
  lastSpeed : Int
  deriving DecidableEq, Repr

/-- The step selection of `slew` (chassis.cpp lines 158-164, drive.cpp lines
81-87): `arc_step` or `accel_step` when `abs(lastSpeed) < abs(speed)`, by mode,
and `deccel_step` otherwise. -/
def slewStep (cfg : SlewConfig) (mode lastSpeed speed : Int) : Int :=
  if |lastSpeed| < |speed| then
    if mode = DISABLE then cfg.arc_step else cfg.accel_step
  else cfg.deccel_step

/-- The update of `lastSpeed` in `slew` (chassis.cpp lines 166-172, drive.cpp
lines 89-95). -/
def slewUpdate (step lastSpeed speed : Int) : Int :=
  if speed > lastSpeed + step then lastSpeed + step
  else if speed < lastSpeed - step then lastSpeed - step
  else speed

namespace chassis

/-- The slew limiter `chassis::slew(speed)` with `mode` and `lastSpeed` the
values of the globals on entry (chassis.cpp lines 155-176). -/
def slew (cfg : SlewConfig) (mode lastSpeed speed : Int) : SlewResult :=
  let step := slewStep cfg mode lastSpeed speed
  let last1 := slewUpdate step lastSpeed speed
  { ret := if |last1| < cfg.min_speed ∧ step = cfg.accel_step then cfg.min_speed else last1,
    lastSpeed := last1 }

/-- The value of `lastSpeed` after `n` successive calls `slew(speed)` with the
same argument and an unchanged mode, starting from `lastSpeed`. -/
def slewRepeat (cfg : SlewConfig) (mode speed : Int) : Nat → Int → Int
  | 0, lastSpeed => lastSpeed
  | n + 1, lastSpeed => slewRepeat cfg mode speed n (slew cfg mode lastSpeed speed).lastSpeed

end chassis

namespace greenhat

/-- The slew limiter `greenhat::slew(speed)` with `driveMode` and `lastSpeed`
the values of the globals on entry (drive.cpp lines 78-98). -/
def slew (cfg : SlewConfig) (driveMode lastSpeed speed : Int) : SlewResult :=
  let step := slewStep cfg driveMode lastSpeed speed
  let last1 := slewUpdate step lastSpeed speed
  { ret := last1, lastSpeed := last1 }

/-- The value of `lastSpeed` after `n` successive calls `slew(speed)` with the
same argument and an unchanged drive mode, starting from `lastSpeed`. -/
def slewRepeat (cfg : SlewConfig) (driveMode speed : Int) : Nat → Int → Int
  | 0, lastSpeed => lastSpeed
  | n + 1, lastSpeed =>
      slewRepeat cfg driveMode speed n (slew cfg driveMode lastSpeed speed).lastSpeed

end greenhat

/-! ## Settling detector (`chassis::isDriving`, chassis.cpp lines 180-207;
`greenhat::isDriving`, drive.cpp lines 102-129) -/

/-- The three function-local statics of `isDriving`. -/
structure Settling where
  count : Int
  last : Int
  lastTarget : Int
  deriving DecidableEq, Repr

/-- The initial values of the statics: `count = 0`, `last = 0`, `lastTarget = 0`. -/
def Settling.init : Settling := { count := 0, last := 0, lastTarget := 0 }

/-- What one call of `isDriving` reads from outside: the sensed position
(`position()` or `drivePos()`) and the globals selecting the active target. -/
structure Sample where
  curr : Int
  mode : Int
  linearTarget : Int
  turnTarget : Int
  deriving DecidableEq, Repr

/-- The active target of a call (chassis.cpp lines 187-189):
`int target = turnTarget; if (mode == LINEAR) target = linearTarget;`. -/
def Sample.target (s : Sample) : Int :=
  if s.mode = LINEAR then s.linearTarget else s.turnTarget

/-- The body of `isDriving` after the position and the active target have been
read (chassis.cpp lines 191-206, drive.cpp lines 113-128): the returned flag and
the new statics. -/
def settleStep (st : Settling) (curr target : Int) : Bool × Settling :=
  let c1 := if |st.last - curr| < 3 then st.count + 1 else 0
  let c2 := if target ≠ st.lastTarget then 0 else c1
  (if c2 > 4 then false else true, { count := c2, last := curr, lastTarget := target })

namespace chassis

/-- The settling detector `chassis::isDriving()` (chassis.cpp lines 180-207). -/
def isDriving (st : Settling) (s : Sample) : Bool × Settling :=
  settleStep st s.curr s.target

/-- The statics after the first `n` calls of a sequence of calls, starting from
the initial statics; `samples k` is what call number `k` (from 0) reads. -/
def settleState (samples : Nat → Sample) : Nat → Settling
  | 0 => Settling.init
  | n + 1 => (isDriving (settleState samples n) (samples n)).2

/-- The value returned by call number `n` (from 0) of the sequence. -/
def drivingAt (samples : Nat → Sample) (n : Nat) : Bool :=
  (isDriving (settleState samples n) (samples n)).1

end chassis

namespace greenhat

/-- The settling detector `greenhat::isDriving()` (drive.cpp lines 102-129):
the active target is `driveTarget` when `driveMode == 1` and `turnTarget`
otherwise. -/
def isDriving (st : Settling) (curr driveMode driveTarget turnTarget : Int) :
    Bool × Settling :=
  settleStep st curr (if driveMode = 1 then driveTarget else turnTarget)

end greenhat

/-- The position sampled by the call before call `n`: the initial `last = 0`
for the first call. -/
def prevPosition (samples : Nat → Sample) (n : Nat) : Int :=
  match n with
  | 0 => 0
  | k + 1 => (samples k).curr

/-- The target of the call before call `n`: the initial `lastTarget = 0` for
the first call. -/
def prevTarget (samples : Nat → Sample) (n : Nat) : Int :=
  match n with
  | 0 => 0
  | k + 1 => (samples k).target

/-- Call `n` is a still call: its position is within 3 ticks of the previously
sampled position and its target equals the target of the preceding call. -/
def stillCall (samples : Nat → Sample) (n : Nat) : Prop :=
  |(samples n).curr - prevPosition samples n| < 3
    ∧ (samples n).target = prevTarget samples n

instance (samples : Nat → Sample) (n : Nat) : Decidable (stillCall samples n) := by
  unfold stillCall; infer_instance

/-! ## Odometry integrator (`chassis::odomTask`, chassis.cpp lines 403-451) -/

/-- The locals of `odomTask` that survive from one loop iteration to the next. -/
structure OdomState (α : Type) where
  global_x : α
  global_y : α
  heading : α
  prev_heading : α
  prev_left_pos : α
  prev_right_pos : α
  deriving DecidableEq, Repr

/-- What one loop iteration reads: `getPosition()` of each motor group when the
arcs are computed (lines 423-424) and again when the previous positions are
stored (lines 425-426), and `imu->get_rotation()` in degrees (line 429). -/
structure OdomReading (α : Type) where
  right_pos : α
  left_pos : α
  right_pos_stored : α
  left_pos_stored : α
  rotation : α
  deriving DecidableEq, Repr

/-- The pose `(global_x, global_y, heading)` printed by every iteration. -/
def OdomState.pose {α : Type} (st : OdomState α) : α × α × α :=
  (st.global_x, st.global_y, st.heading)

section Odometry

variable {α : Type} [LinearOrderedField α]

/-- The locals of `odomTask` before the loop (lines 404-411); `pi` is `M_PI`. -/
def odomInit (pi : α) : OdomState α :=
  { global_x := 0, global_y := 0, heading := pi / 2, prev_heading := pi / 2,
    prev_left_pos := 0, prev_right_pos := 0 }

/-- One iteration of the loop of `odomTask` (lines 423-445). The library
functions `sin` and `cos` and the constant `M_PI` are parameters. -/
def odomTick (sin cos : α → α) (pi : α) (st : OdomState α) (rd : OdomReading α) :
    OdomState α :=
  let right_arc := rd.right_pos - st.prev_right_pos
  let left_arc := rd.left_pos - st.prev_left_pos
  let center_arc := (right_arc + left_arc) / 2
  let heading := rd.rotation * pi / 180
  let delta_angle := heading - st.prev_heading
  let center_displacement :=
    if delta_angle ≠ 0 then 2 * sin (delta_angle / 2) * (center_arc / delta_angle)
    else center_arc
  let delta_x := cos heading * center_displacement
  let delta_y := sin heading * center_displacement
  { global_x := st.global_x + delta_x, global_y := st.global_y + delta_y,
    heading := heading, prev_heading := heading,
    prev_left_pos := rd.left_pos_stored, prev_right_pos := rd.right_pos_stored }

/-- A reading in which both reads of each wheel position return the same value. -/
def steadyReading (left right rotation : α) : OdomReading α :=
  { right_pos := right, left_pos := left, right_pos_stored := right,
    left_pos_stored := left, rotation := rotation }

/-- The state after `n` iterations that all read the same `rd`. -/
def odomRun (sin cos : α → α) (pi : α) (rd : OdomReading α) : Nat → OdomState α → OdomState α
  | 0, st => st
  | n + 1, st => odomRun sin cos pi rd n (odomTick sin cos pi st rd)

end Odometry

/-! ## Odometry over a sequence of readings -/

section OdometrySequence

variable {α : Type} [LinearOrderedField α]

/-- The value of `center_arc` in an iteration of `odomTask` (lines 423-427). -/
def centerArc (st : OdomState α) (rd : OdomReading α) : α :=
  ((rd.right_pos - st.prev_right_pos) + (rd.left_pos - st.prev_left_pos)) / 2

/-- The state after one iteration for each reading of the list, in order. -/
def odomTicks (sin cos : α → α) (pi : α) : List (OdomReading α) → OdomState α → OdomState α
  | [], st => st
  | rd :: rest, st => odomTicks sin cos pi rest (odomTick sin cos pi st rd)

/-- Every iteration of the sequence computes `center_arc = 0`: the left and
right wheel displacements cancel in each tick. -/
def arcsCancel (sin cos : α → α) (pi : α) : List (OdomReading α) → OdomState α → Prop
  | [], _ => True
  | rd :: rest, st => centerArc st rd = 0 ∧ arcsCancel sin cos pi rest (odomTick sin cos pi st rd)

/-- The heading reading of the last iteration of the sequence, `dflt` for an
empty sequence. -/
def lastRotation (dflt : α) : List (OdomReading α) → α
  | [] => dflt
  | rd :: rest => lastRotation rd.rotation rest

end OdometrySequence

/-! ## Chassis globals, motor calls and the control loop (chassis.cpp) -/

/-- The motors and motor groups the chassis code commands. -/
inductive Motor where
  | leftMotors
  | rightMotors
  | frontLeft
  | frontRight
  | backLeft
  | backRight
  deriving DecidableEq, Repr

/-- A call into the motor driver: `moveVoltage(mV)` with its integer argument,
or `moveVelocity(v)` with the value of the `double` expression passed to it. -/
inductive Command (α : Type) where
  | moveVoltage (m : Motor) (mV : Int)
  | moveVelocity (m : Motor) (v : α)
  deriving DecidableEq, Repr

/-- The file-level variables `mode`, `linearTarget`, `turnTarget`,
`vectorAngle`, `maxSpeed` (chassis.cpp lines 52-56) and `lastSpeed` (line 154),
together with `prevError`, the local of `chassisTask` that lives across its loop
iterations (line 453). -/
structure Chassis (α : Type) where
  mode : Int
  linearTarget : Int
  turnTarget : Int
  vectorAngle : α
  maxSpeed : Int
  lastSpeed : Int
  prevError : Int
  deriving DecidableEq, Repr

/-- The constants assigned by `chassis::init` (lines 547-559) and the gearing
of the motors read by `motorVelocity`. -/
structure ChassisConfig (α : Type) where
  slew : SlewConfig
  distance_constant : Int
  degree_constant : α
  linearKP : α
  linearKD : α
  turnKP : α
  turnKD : α
  arcKP : α
  difKP : α
  imuPort : Int
  gearing : α
  deriving Repr

/-- What one iteration of `chassisTask` reads from the sensors: `position()`,
`position(true)` and `difference()`. -/
structure TickReading where
  sv_x : Int
  sv_y : Int
  difference : Int
  deriving DecidableEq, Repr

section ChassisModel

variable {α : Type} [LinearOrderedField α] [FloorRing α]

/-- Conversion of a `double` to `int`: truncation towards zero. -/
def truncInt (x : α) : Int :=
  if 0 ≤ x then ⌊x⌋ else ⌈x⌉

/-- The initial values of the globals and of `prevError`. -/
def Chassis.init : Chassis α :=
  { mode := DISABLE, linearTarget := 0, turnTarget := 0, vectorAngle := 0,
    maxSpeed := 100, lastSpeed := 0, prevError := 0 }

namespace chassis

/-- The call `motorVoltage(motor, vel)` (lines 62-64 and 70-72):
`motor->moveVoltage(vel * 120)`. -/
def motorVoltage (m : Motor) (vel : Int) : Command α :=
  Command.moveVoltage m (vel * 120)

/-- The call `motorVelocity(motor, vel)` (lines 66-68 and 74-76):
`motor->moveVelocity(vel * (double)motor->getGearing() / 200)`. -/
def motorVelocity (gearing : α) (m : Motor) (vel : Int) : Command α :=
  Command.moveVelocity m ((vel : α) * gearing / 200)

/-- The teleop call `tank(left_speed, right_speed)` (lines 602-606). -/
def tank (st : Chassis α) (left_speed right_speed : Int) : Chassis α × List (Command α) :=
  ({ st with mode := DISABLE },
    [motorVoltage Motor.leftMotors left_speed, motorVoltage Motor.rightMotors right_speed])

/-- The teleop call `arcade(vertical, horizontal)` (lines 608-612). -/
def arcade (st : Chassis α) (vertical horizontal : Int) : Chassis α × List (Command α) :=
  ({ st with mode := DISABLE },
    [motorVoltage Motor.leftMotors (vertical + horizontal),
     motorVoltage Motor.rightMotors (vertical - horizontal)])

/-- The teleop call `holonomic(x, y, z)` (lines 614-620). -/
def holonomic (st : Chassis α) (x y z : Int) : Chassis α × List (Command α) :=
  ({ st with mode := 0 },
    [motorVoltage Motor.frontLeft (x + y + z),
     motorVoltage Motor.frontRight (x - y - z),
     motorVoltage Motor.backLeft (x + y - z),
     motorVoltage Motor.backRight (x - y + z)])

/-- The effect of `moveAsync(sp, max)` on the globals (lines 216-223). The call
`reset()` (lines 85-100) commands and tares motors and encoders and assigns no
global. -/
def moveAsync (cfg : ChassisConfig α) (st : Chassis α) (sp : α) (max : Int) : Chassis α :=
  let sp1 := sp * (cfg.distance_constant : α)
  { st with maxSpeed := max, linearTarget := truncInt sp1, mode := LINEAR, vectorAngle := 0 }

/-- The effect of `move(sp, max)` on the globals (lines 251-255): that of
`moveAsync`; the `delay` and `waitUntilSettled()` that follow assign no global. -/
def move (cfg : ChassisConfig α) (st : Chassis α) (sp : α) (max : Int) : Chassis α :=
  moveAsync cfg st sp max

/-- The effect of `turnAsync(sp, max)` on the globals (lines 225-235);
`rotation` is the value `imu->get_rotation()` returns when it is read. -/
def turnAsync (cfg : ChassisConfig α) (st : Chassis α) (rotation sp : α) (max : Int) :
    Chassis α :=
  let sp1 := if cfg.imuPort ≠ 0 then sp + rotation else sp
  let sp2 := sp1 * cfg.degree_constant
  { st with maxSpeed := max, turnTarget := truncInt sp2, mode := ANGULAR, vectorAngle := 0 }

/-- The effect of `turnAbsoluteAsync(sp, max)` on the globals (lines 237-240);
`currentPos` is its own read of `imu->get_rotation()` and `rotation` the read
made inside `turnAsync`. -/
def turnAbsoluteAsync (cfg : ChassisConfig α) (st : Chassis α) (currentPos rotation sp : α)
    (max : Int) : Chassis α :=
  turnAsync cfg st rotation (sp - currentPos) max

/-- The effect of `moveHoloAsync(distance, angle, max)` on the globals (lines
242-249); `pi` is `M_PI`. -/
def moveHoloAsync (pi : α) (cfg : ChassisConfig α) (st : Chassis α) (distance angle : α)
    (max : Int) : Chassis α :=
  let distance1 := distance * (cfg.distance_constant : α)
  { st with maxSpeed := max, linearTarget := truncInt distance1,
            vectorAngle := angle * pi / 180, mode := 1 }

/-- The wheel factors of the holonomic branch of `chassisTask` (lines 503-515):
`frontVector` and `backVector` after both have been multiplied by
`speed / largestVector`. `abs` is read as the absolute value of a `double`. -/
def holoVectors (sin : α → α) (pi vectorAngle : α) (speed : Int) : α × α :=
  let frontVector := sin (pi / 4 - vectorAngle)
  let backVector := sin (pi / 4 + vectorAngle)
  let largestVector := if |frontVector| > |backVector| then |frontVector| else |backVector|
  (frontVector * ((speed : α) / largestVector), backVector * ((speed : α) / largestVector))

/-- One iteration of the loop of `chassisTask` after its `delay` (lines
461-527): the new globals and `prevError`, and the motor calls made. `sin` and
`sqrt` are the library functions, `pi` is `M_PI`. -/
def chassisTick (sin sqrt : α → α) (pi : α) (cfg : ChassisConfig α) (st : Chassis α)
    (rd : TickReading) : Chassis α × List (Command α) :=
  if st.mode = LINEAR ∨ st.mode = ANGULAR then
    let sp := if st.mode = LINEAR then st.linearTarget else st.turnTarget
    let kp := if st.mode = LINEAR then cfg.linearKP else cfg.turnKP
    let kd := if st.mode = LINEAR then cfg.linearKD else cfg.turnKD
    let sv : Int :=
      if st.vectorAngle ≠ 0 then truncInt (sqrt ((rd.sv_x : α) ^ 2 + (rd.sv_y : α) ^ 2))
      else rd.sv_x
    let error := sp - sv
    let derivative := error - st.prevError
    let speed0 : Int := truncInt ((error : α) * kp + (derivative : α) * kd)
    let speed1 := if speed0 > st.maxSpeed then st.maxSpeed else speed0
    let speed2 := if speed1 < -st.maxSpeed then -st.maxSpeed else speed1
    let r := slew cfg.slew st.mode st.lastSpeed speed2
    let speed := r.ret
    let st1 := { st with prevError := error, lastSpeed := r.lastSpeed }
    if st.vectorAngle ≠ 0 then
      let v := holoVectors sin pi st.vectorAngle speed
      (st1, [motorVoltage Motor.frontLeft (truncInt v.1),
             motorVoltage Motor.backLeft (truncInt v.2),
             motorVoltage Motor.frontRight (truncInt v.2),
             motorVoltage Motor.backRight (truncInt v.1)])
    else
      let dif : Int := truncInt ((rd.difference : α) * cfg.difKP)
      (st1, [motorVelocity cfg.gearing Motor.leftMotors ((speed - dif) * st.mode),
             motorVelocity cfg.gearing Motor.rightMotors (speed + dif)])
  else
    (st, [])

/-- The globals after one iteration of `chassisTask` for each reading of the
list, and all motor calls made, in order. -/
def chassisTicks (sin sqrt : α → α) (pi : α) (cfg : ChassisConfig α) :
    List TickReading → Chassis α → Chassis α × List (Command α)
  | [], st => (st, [])
  | rd :: rest, st =>
      let r1 := chassisTick sin sqrt pi cfg st rd
      let r2 := chassisTicks sin sqrt pi cfg rest r1.1
      (r2.1, r1.2 ++ r2.2)

end chassis

end ChassisModel

/-! ## Pure-pursuit regulation (`arms::pid::translational`, pid.cpp lines 55-107) -/

/-- The four function-local statics of `translational` (lines 57-62). -/
structure TransState (α : Type) where
  pe_lin : α
  pe_ang : α
  in_lin : α
  in_ang : α
  deriving DecidableEq, Repr

/-- The gain globals of `arms::pid` (pid.cpp lines 9-21). -/
structure PidGains (α : Type) where
  linearKP : α
  angularKP : α
  linearKI : α
  linearKD : α
  angularKI : α
  angularKD : α
  defaultLinearKP : α
  defaultAngularKP : α
  odomAngleScaling : α
  deriving DecidableEq, Repr

/-- The values computed by one call of `translational`, in the order of the
source: the gains after the default check, the statics after the two `pid`
calls, `ang_error` after the direction block, `lin_speed` after the direction
block and the thru override (`lin_clamp`), `ang_speed` after the clamp,
`scaling_factor`, `lin_speed` after the rescale, and the two returned speeds. -/
structure TransTrace (α : Type) where
  linearKP : α
  angularKP : α
  regs : TransState α
  ang_error : α
  lin_clamp : α
  ang_speed : α
  scaling_factor : α
  lin_speed : α
  left_speed : α
  right_speed : α
  deriving DecidableEq, Repr

section PurePursuit

variable {α : Type} [LinearOrderedField α]

/-- The statics of `translational` before its first call: all zero. -/
def TransState.init : TransState α :=
  { pe_lin := 0, pe_ang := 0, in_lin := 0, in_ang := 0 }

/-- One call of `translational()` (pid.cpp lines 55-107). `lin_error` and
`ang_error` are the values returned by `purepursuit::getDistanceError` and
`odom::getAngleError`, `maxSpeed` is `chassis::maxSpeed`, `pi` is `M_PI` (and
`pi / 2` is `M_PI_2`). -/
def translationalTrace (pi : α) (g : PidGains α) (direction : Int) (thru : Bool)
    (maxSpeed : α) (st : TransState α) (lin_error ang_error : α) : TransTrace α :=
  let linearKP := if g.linearKP = -1 then g.defaultLinearKP else g.linearKP
  let angularKP := if g.angularKP = -1 then g.defaultAngularKP else g.angularKP
  let rl := pid lin_error st.pe_lin st.in_lin linearKP g.linearKI g.linearKD
  let ra := pid ang_error st.pe_ang st.in_ang (angularKP * g.odomAngleScaling) g.angularKI
    (g.angularKD * g.odomAngleScaling)
  let reverse : Prop := direction = 3 ∨ (direction = 1 ∧ |ang_error| > pi / 2)
  let ang_error1 := if reverse then ang_error - (ang_error / |ang_error|) * pi else ang_error
  let lin1 := if reverse then -rl.speed else rl.speed
  let lin2 := if thru then maxSpeed else lin1
  let ang1 := if |ra.speed| > |lin2| then |lin2| * ra.speed / |ra.speed| else ra.speed
  let scaling_factor := |lin2| + |ang1|
  let lin3 := maxSpeed * lin2 / scaling_factor
  { linearKP := linearKP, angularKP := angularKP,
    regs := { pe_lin := rl.pe, pe_ang := ra.pe, in_lin := rl.integ, in_ang := ra.integ },
    ang_error := ang_error1, lin_clamp := lin2, ang_speed := ang1,
    scaling_factor := scaling_factor, lin_speed := lin3,
    left_speed := lin3 - ang1, right_speed := lin3 + ang1 }

/-- The pair `{left_speed, right_speed}` returned by `translational()`. -/
def translational (pi : α) (g : PidGains α) (direction : Int) (thru : Bool)
    (maxSpeed : α) (st : TransState α) (lin_error ang_error : α) : α × α :=
  let t := translationalTrace pi g direction thru maxSpeed st lin_error ang_error
  (t.left_speed, t.right_speed)

end PurePursuit

/-! ## Arc motions and `fast` (chassis.cpp lines 269-363) -/

section ArcModel

variable {α : Type} [LinearOrderedField α] [FloorRing α]

/-- The factor by which `arc` multiplies `scaled_speed` at time step `time_step`
(chassis.cpp lines 343-348, drive.cpp lines 240-245): `time_step / arc_length`
for type 1, `abs(2 * (.5 - time_step / arc_length))` for type 2,
`1 - time_step / arc_length` for type 3; no multiplication (factor 1) otherwise. -/
def arcFactor (type time_step arc_length : Int) : α :=
  if type = 1 then (time_step : α) / (arc_length : α)
  else if type = 2 then |2 * (1 / 2 - (time_step : α) / (arc_length : α))|
  else if type = 3 then 1 - (time_step : α) / (arc_length : α)
  else 1

/-- The value of `scaled_speed` after the profile of `arc` has been applied to
its initial value `scaled_speed = speed * rad` (chassis.cpp lines 343-348,
drive.cpp lines 240-245). -/
def arcScaled (type : Int) (scaled_speed : α) (time_step arc_length : Int) : α :=
  if type = 1 then scaled_speed * ((time_step : α) / (arc_length : α))
  else if type = 2 then scaled_speed * |2 * (1 / 2 - (time_step : α) / (arc_length : α))|
  else if type = 3 then scaled_speed * (1 - (time_step : α) / (arc_length : α))
  else scaled_speed

/-- What one iteration of the loop of `arc` computes: the result of its call of
`slew` and the two arguments of its `motorVelocity` calls. -/
structure ArcTick where
  slewed : SlewResult
  left : Int
  right : Int
  deriving DecidableEq, Repr

namespace chassis

/-- The body of the loop of `arc` (chassis.cpp lines 319-352) at time step
`time_step`, with `lastSpeed` the value of the global on entry; `mode` is
`DISABLE` since line 301. -/
def arcTick (cfg : ChassisConfig α) (mirror reversed : Bool) (arc_length : Int) (rad : α)
    (max type time_step lastSpeed : Int) : ArcTick :=
  let error := arc_length - time_step
  let speed0 : Int := truncInt ((error : α) * cfg.arcKP)
  let speed1 := if type = 1 ∨ type = 2 then max else speed0
  let speed2 := if speed1 > max then max else speed1
  let speed3 := if speed2 < -max then -max else speed2
  let speed4 := if speed3 < 0 then 0 else speed3
  let r := slew cfg.slew DISABLE lastSpeed speed4
  let speed := if reversed then -r.ret else r.ret
  let scaled_speed : α := arcScaled type ((speed : α) * rad) time_step arc_length
  { slewed := r,
    left := truncInt (if mirror then (speed : α) else scaled_speed),
    right := truncInt (if mirror then scaled_speed else (speed : α)) }

/-- The loop `while (time_step < arc_length)` of `arc` (chassis.cpp lines
317-357) from time step `time_step`: the final `lastSpeed` and, per iteration,
the arguments of `motorVelocity(leftMotors, _)` and `motorVelocity(rightMotors, _)`. -/
def arcLoop (cfg : ChassisConfig α) (mirror reversed : Bool) (arc_length : Int) (rad : α)
    (max type : Int) (time_step lastSpeed : Int) : Int × List (Int × Int) :=
  if time_step < arc_length then
    let t := arcTick cfg mirror reversed arc_length rad max type time_step lastSpeed
    let rest := arcLoop cfg mirror reversed arc_length rad max type (time_step + 10)
      t.slewed.lastSpeed
    (rest.1, (t.left, t.right) :: rest.2)
  else
    (lastSpeed, [])
termination_by (arc_length - time_step).toNat
decreasing_by omega

/-- The call `arc(mirror, arc_length, rad, max, type)` (chassis.cpp lines
298-363): the globals when it returns and the ticks of its loop. The
zero-velocity calls before the loop (type below 2) and after it (types other
than 1 and 2) and the calls of `reset()` do not depend on `arc_length`. -/
def arc (cfg : ChassisConfig α) (st : Chassis α) (mirror : Bool) (arc_length : Int) (rad : α)
    (max type : Int) : Chassis α × List (Int × Int) :=
  let reversed : Bool := decide (arc_length < 0)
  let arc_length1 := if arc_length < 0 then -arc_length else arc_length
  let r := arcLoop cfg mirror reversed arc_length1 rad max type 0 st.lastSpeed
  ({ st with mode := DISABLE, lastSpeed := r.1 }, r.2)

/-- All `motorVelocity` calls of `arc` in order, given its ticks: the two
zero-velocity calls of lines 311-315, two calls per tick, and the two
zero-velocity calls of lines 359-362. -/
def arcCalls (gearing : α) (type : Int) (ticks : List (Int × Int)) : List (Command α) :=
  (if type < 2 then
      [motorVelocity gearing Motor.leftMotors 0, motorVelocity gearing Motor.rightMotors 0]
    else [])
    ++ ticks.flatMap (fun t =>
        [motorVelocity gearing Motor.leftMotors t.1, motorVelocity gearing Motor.rightMotors t.2])
    ++ (if type ≠ 1 ∧ type ≠ 2 then
          [motorVelocity gearing Motor.leftMotors 0, motorVelocity gearing Motor.rightMotors 0]
        else [])

/-- The effect of `fast(sp, max)` on the globals and its motor calls (chassis.cpp
lines 269-276); the waiting loops that follow assign no global. -/
def fast (st : Chassis α) (sp : α) (max : Int) : Chassis α × List (Command α) :=
  let max1 := if sp < 0 then -max else max
  ({ st with lastSpeed := max1, mode := DISABLE },
    [motorVoltage Motor.leftMotors max1, motorVoltage Motor.rightMotors max1])

/-- The factor of the holonomic branch of `chassisTask` by which the speed is
divided (lines 507-512): `largestVector`. -/
def largestVector (sin : α → α) (pi vectorAngle : α) : α :=
  let frontVector := sin (pi / 4 - vectorAngle)
  let backVector := sin (pi / 4 + vectorAngle)
  if |frontVector| > |backVector| then |frontVector| else |backVector|

end chassis

/-- The same command with the opposite sign. -/
def Command.neg : Command α → Command α
  | Command.moveVoltage m mV => Command.moveVoltage m (-mV)
  | Command.moveVelocity m v => Command.moveVelocity m (-v)

/-- A call of one of the functions that assign `mode`, with its arguments and
the sensor values it reads. -/
inductive Call (α : Type) where
  | moveAsync (sp : α) (max : Int)
  | turnAsync (rotation sp : α) (max : Int)
  | turnAbsoluteAsync (currentPos rotation sp : α) (max : Int)
  | moveHoloAsync (distance angle : α) (max : Int)
  | fast (sp : α) (max : Int)
  | arc (mirror : Bool) (arc_length : Int) (rad : α) (max type : Int)
  | tank (left_speed right_speed : Int)
  | arcade (vertical horizontal : Int)
  | holonomic (x y z : Int)

/-- The globals after a call. -/
def Call.apply (pi : α) (cfg : ChassisConfig α) (st : Chassis α) : Call α → Chassis α
  | Call.moveAsync sp max => chassis.moveAsync cfg st sp max
  | Call.turnAsync rotation sp max => chassis.turnAsync cfg st rotation sp max
  | Call.turnAbsoluteAsync currentPos rotation sp max =>
      chassis.turnAbsoluteAsync cfg st currentPos rotation sp max
  | Call.moveHoloAsync distance angle max => chassis.moveHoloAsync pi cfg st distance angle max
  | Call.fast sp max => (chassis.fast st sp max).1
  | Call.arc mirror arc_length rad max type => (chassis.arc cfg st mirror arc_length rad max type).1
  | Call.tank left_speed right_speed => (chassis.tank st left_speed right_speed).1
  | Call.arcade vertical horizontal => (chassis.arcade st vertical horizontal).1
  | Call.holonomic x y z => (chassis.holonomic st x y z).1

/-- The globals after a sequence of calls, in order. -/
def runCalls (pi : α) (cfg : ChassisConfig α) : List (Call α) → Chassis α → Chassis α
  | [], st => st
  | c :: rest, st => runCalls pi cfg rest (c.apply pi cfg st)

end ArcModel

/-! ## Theorems -/

section RegulatorTheorems

variable {α : Type} [LinearOrderedField α]

/-- C1: the speed returned by `pid` is `error*kp + I*ki + (error - pe)*kd`,
where `I` is `0` when `pe` and `error` have strictly opposite signs and the
incoming integral otherwise; with a previous error of exactly `0`, or a
current error of exactly `0`, the incoming integral is used unchanged. -/
theorem pid_speed_formula (error pe integ kp ki kd : α) :
    (pid error pe integ kp ki kd).speed
        = error * kp
          + (if (pe > 0 ∧ error < 0) ∨ (pe < 0 ∧ error > 0) then 0 else integ) * ki
          + (error - pe) * kd
      ∧ (pid error 0 integ kp ki kd).speed = error * kp + integ * ki + (error - 0) * kd
      ∧ (pid 0 pe integ kp ki kd).speed = 0 * kp + integ * ki + (0 - pe) * kd := by
  refine ⟨rfl, ?_, ?_⟩
  · simp [pid, pidReset]
  · simp [pid, pidReset]

/-- C2 (as stated, refuted): two sequential calls with errors `1` then `-1`
(strictly opposite signs), gains `kp = 1`, `ki = kd = 0`, from `pe = 0`,
`in = 0`: the integral stored after the second call is `-1`, not `0`. -/
theorem pid_opposite_signs_integral_not_zero :
    (((1 : ℝ) > 0 ∧ (-1 : ℝ) < 0) ∨ ((1 : ℝ) < 0 ∧ (-1 : ℝ) > 0))
      ∧ (pidTwice (1 : ℝ) (-1) 0 0 1 0 0).integ = -1
      ∧ (pidTwice (1 : ℝ) (-1) 0 0 1 0 0).integ ≠ 0 := by
  have h : (pidTwice (1 : ℝ) (-1) 0 0 1 0 0).integ = -1 := by
    norm_num [pidTwice, pid, pidReset]
  refine ⟨Or.inl ⟨by norm_num, by norm_num⟩, h, ?_⟩
  rw [h]; norm_num

/-- C2 (amended): for two sequential calls whose errors `e1`, `e2` have strictly
opposite signs, the second call resets the integral before it computes its
output, so its speed is `e2*kp + (e2 - e1)*kd` with no integral term, and the
integral stored when it returns is `e2` if that speed has magnitude below 100
and `0` otherwise. -/
theorem pid_opposite_signs_reset (e1 e2 pe integ kp ki kd : α)
    (h : (e1 > 0 ∧ e2 < 0) ∨ (e1 < 0 ∧ e2 > 0)) :
    (pidTwice e1 e2 pe integ kp ki kd).speed = e2 * kp + (e2 - e1) * kd
      ∧ (pidTwice e1 e2 pe integ kp ki kd).integ
          = if |e2 * kp + (e2 - e1) * kd| < 100 then e2 else 0 := by
  have hr : ∀ i : α, pidReset e2 e1 i = 0 := fun i => by
    unfold pidReset; rw [if_pos h]
  have hs : (pidTwice e1 e2 pe integ kp ki kd).speed = e2 * kp + (e2 - e1) * kd := by
    simp only [pidTwice, pid, hr]; ring
  refine ⟨hs, ?_⟩
  have hi : (pidTwice e1 e2 pe integ kp ki kd).integ
      = if |(pidTwice e1 e2 pe integ kp ki kd).speed| < 100 then 0 + e2 else 0 := by
    simp only [pidTwice, pid, hr]
  rw [hi, hs, zero_add]

/-- Witness for `pid_opposite_signs_reset`: errors `1` then `-1` with gains
`kp = 200`, `ki = kd = 0`; the second speed is `-200` and the stored integral `0`. -/
theorem pid_opposite_signs_reset_witness :
    (pidTwice (1 : ℝ) (-1) 0 0 200 0 0).speed = (-1) * 200 + (-1 - 1) * 0
      ∧ (pidTwice (1 : ℝ) (-1) 0 0 200 0 0).integ
          = if |(-1 : ℝ) * 200 + (-1 - 1) * 0| < 100 then -1 else 0 :=
  pid_opposite_signs_reset (1 : ℝ) (-1) 0 0 200 0 0 (Or.inl ⟨by norm_num, by norm_num⟩)

/-- C3: output-gated anti-windup. With `I` the integral after the sign-change
reset and `s` the returned speed, the integral stored by `pid` is `I + error`
when `|s| < 100` and `I` when `|s| >= 100`; the stored previous error is the
current error. -/
theorem pid_anti_windup (error pe integ kp ki kd : α) :
    (|(pid error pe integ kp ki kd).speed| < 100 →
        (pid error pe integ kp ki kd).integ = pidReset error pe integ + error)
      ∧ (100 ≤ |(pid error pe integ kp ki kd).speed| →
        (pid error pe integ kp ki kd).integ = pidReset error pe integ)
      ∧ (pid error pe integ kp ki kd).pe = error := by
  refine ⟨fun h => ?_, fun h => ?_, rfl⟩
  · have : (pid error pe integ kp ki kd).integ
        = if |(pid error pe integ kp ki kd).speed| < 100
            then pidReset error pe integ + error else pidReset error pe integ := rfl
    rw [this, if_pos h]
  · have : (pid error pe integ kp ki kd).integ
        = if |(pid error pe integ kp ki kd).speed| < 100
            then pidReset error pe integ + error else pidReset error pe integ := rfl
    rw [this, if_neg (not_lt.mpr h)]

/-- Witness for `pid_anti_windup`: with error `150` and `kp = 1` the speed is
`150`, the integral `7` is kept; with error `5` it grows to `12`. -/
theorem pid_anti_windup_witness :
    (pid (150 : ℝ) 0 7 1 0 0).integ = 7 ∧ (pid (5 : ℝ) 0 7 1 0 0).integ = 7 + 5 := by
  have h1 := (pid_anti_windup (150 : ℝ) 0 7 1 0 0).2.1 (by norm_num [pid, pidReset])
  have h2 := (pid_anti_windup (5 : ℝ) 0 7 1 0 0).1 (by norm_num [pid, pidReset, abs_lt])
  refine ⟨?_, ?_⟩
  · rw [h1]; norm_num [pidReset]
  · rw [h2]; norm_num [pidReset]

end RegulatorTheorems

/-! ### Slew limiter -/

/-- The update moves `lastSpeed` by at most `step` when `step` is not negative. -/
theorem slewUpdate_abs_sub_le (step lastSpeed speed : Int) (h : 0 ≤ step) :
    |slewUpdate step lastSpeed speed - lastSpeed| ≤ step := by
  unfold slewUpdate
  rw [abs_le]
  split_ifs <;> constructor <;> omega

/-- With non-negative steps the selected step is not negative. -/
theorem slewStep_nonneg (cfg : SlewConfig) (mode lastSpeed speed : Int)
    (ha : 0 ≤ cfg.accel_step) (hr : 0 ≤ cfg.arc_step) (hd : 0 ≤ cfg.deccel_step) :
    0 ≤ slewStep cfg mode lastSpeed speed := by
  unfold slewStep
  split_ifs <;> assumption

/-- With all steps at least `step` the selected step is at least `step`. -/
theorem le_slewStep (cfg : SlewConfig) (mode lastSpeed speed step : Int)
    (ha : step ≤ cfg.accel_step) (hr : step ≤ cfg.arc_step) (hd : step ≤ cfg.deccel_step) :
    step ≤ slewStep cfg mode lastSpeed speed := by
  unfold slewStep
  split_ifs <;> assumption

/-- One update with a step of at least `step > 0` either reaches the requested
speed or brings `lastSpeed` closer to it by at least `step`. -/
theorem slewUpdate_progress (s step lastSpeed speed : Int) (hs : 0 < step) (hle : step ≤ s) :
    slewUpdate s lastSpeed speed = speed
      ∨ |speed - slewUpdate s lastSpeed speed| + step ≤ |speed - lastSpeed| := by
  unfold slewUpdate
  split_ifs with h1 h2
  · right
    rw [abs_of_nonneg (by omega), abs_of_nonneg (by omega)]
    omega
  · right
    rw [abs_of_nonpos (by omega), abs_of_nonpos (by omega)]
    omega
  · left; rfl

/-- Repeated updates with steps of at least `step > 0` reach the requested speed
once `n * step` covers the initial distance. -/
theorem slewRepeat_reaches (f : Int → Int) (speed step : Int) (hs : 0 < step)
    (hf : ∀ l, f l = speed ∨ |speed - f l| + step ≤ |speed - l|) :
    ∀ (n : Nat) (l : Int), |speed - l| ≤ n * step → f^[n] l = speed := by
  intro n
  induction n with
  | zero =>
    intro l h
    have h0 : |speed - l| = 0 := le_antisymm (by simpa using h) (abs_nonneg _)
    have := abs_eq_zero.mp h0
    simp only [Function.iterate_zero, id_eq]
    omega
  | succ k ih =>
    intro l h
    rw [Function.iterate_succ_apply]
    apply ih
    rcases hf l with he | hp
    · rw [he, sub_self, abs_zero]
      positivity
    · push_cast at h
      nlinarith [abs_nonneg (speed - f l)]

/-- The chassis repeat is the iterate of one call. -/
theorem chassis_slewRepeat_eq_iterate (cfg : SlewConfig) (mode speed : Int) (n : Nat)
    (l : Int) :
    chassis.slewRepeat cfg mode speed n l
      = (fun x => (chassis.slew cfg mode x speed).lastSpeed)^[n] l := by
  induction n generalizing l with
  | zero => rfl
  | succ k ih => rw [chassis.slewRepeat, ih, Function.iterate_succ_apply]

/-- The greenhat repeat is the iterate of one call. -/
theorem greenhat_slewRepeat_eq_iterate (cfg : SlewConfig) (mode speed : Int) (n : Nat)
    (l : Int) :
    greenhat.slewRepeat cfg mode speed n l
      = (fun x => (greenhat.slew cfg mode x speed).lastSpeed)^[n] l := by
  induction n generalizing l with
  | zero => rfl
  | succ k ih => rw [greenhat.slewRepeat, ih, Function.iterate_succ_apply]

/-- C4 (as stated, refuted): with `accel_step = 2`, `min_speed = 30`, mode
`LINEAR`, last commanded speed `0` and requested speed `10`, the applicable
step is `2` but the call returns `30`, which is 30 away from the last
commanded speed. -/
theorem slew_return_exceeds_step :
    (0 : Int) ≤ 2 ∧ (0 : Int) ≤ 200
      ∧ slewStep ⟨2, 200, 2, 30⟩ LINEAR 0 10 = 2
      ∧ (chassis.slew ⟨2, 200, 2, 30⟩ LINEAR 0 10).ret = 30
      ∧ ¬ |(chassis.slew ⟨2, 200, 2, 30⟩ LINEAR 0 10).ret - 0|
            ≤ slewStep ⟨2, 200, 2, 30⟩ LINEAR 0 10 := by
  decide

/-- C4 (amended): with non-negative `accel_step`, `arc_step` and `deccel_step`,
the last commanded speed stored by `chassis::slew` differs from the one held
before the call by at most the applicable step, and so does the returned value
on every call that does not substitute the minimum-speed floor. -/
theorem slew_change_le_step (cfg : SlewConfig) (mode lastSpeed speed : Int)
    (ha : 0 ≤ cfg.accel_step) (hr : 0 ≤ cfg.arc_step) (hd : 0 ≤ cfg.deccel_step) :
    |(chassis.slew cfg mode lastSpeed speed).lastSpeed - lastSpeed|
        ≤ slewStep cfg mode lastSpeed speed
      ∧ (¬ (|(chassis.slew cfg mode lastSpeed speed).lastSpeed| < cfg.min_speed
              ∧ slewStep cfg mode lastSpeed speed = cfg.accel_step) →
          |(chassis.slew cfg mode lastSpeed speed).ret - lastSpeed|
            ≤ slewStep cfg mode lastSpeed speed) := by
  have hb := slewUpdate_abs_sub_le (slewStep cfg mode lastSpeed speed) lastSpeed speed
    (slewStep_nonneg cfg mode lastSpeed speed ha hr hd)
  refine ⟨hb, fun hn => ?_⟩
  have hret : (chassis.slew cfg mode lastSpeed speed).ret
      = (chassis.slew cfg mode lastSpeed speed).lastSpeed := by
    simp only [chassis.slew] at hn ⊢
    rw [if_neg hn]
  rw [hret]
  exact hb

/-- Witness for `slew_change_le_step`: steps `5`, `200`, `5`, `min_speed = 3`,
mode `LINEAR`, from `0` towards `50`. -/
theorem slew_change_le_step_witness :
    |(chassis.slew ⟨5, 200, 5, 3⟩ LINEAR 0 50).lastSpeed - 0|
        ≤ slewStep ⟨5, 200, 5, 3⟩ LINEAR 0 50
      ∧ |(chassis.slew ⟨5, 200, 5, 3⟩ LINEAR 0 50).ret - 0|
        ≤ slewStep ⟨5, 200, 5, 3⟩ LINEAR 0 50 :=
  have h := slew_change_le_step ⟨5, 200, 5, 3⟩ LINEAR 0 50 (by decide) (by decide) (by decide)
  ⟨h.1, h.2 (by decide)⟩

/-- C5: slew convergence. With `accel_step`, `arc_step` and `deccel_step` all at
least `step > 0`, a fixed mode and a fixed requested speed `T`, after any number
`n >= ceil(|T - L0| / step)` of calls `slew(T)` from the last commanded speed
`L0` the stored last commanded speed is `T` (so it also stays `T` on every
further call), for the chassis and the greenhat limiter alike. -/
theorem slew_converges (cfg : SlewConfig) (mode T L0 step : Int) (n : Nat)
    (hs : 0 < step) (ha : step ≤ cfg.accel_step) (hr : step ≤ cfg.arc_step)
    (hd : step ≤ cfg.deccel_step)
    (hn : ⌈((|T - L0| : Int) : ℚ) / (step : ℚ)⌉ ≤ (n : Int)) :
    chassis.slewRepeat cfg mode T n L0 = T ∧ greenhat.slewRepeat cfg mode T n L0 = T := by
  have hq : (0 : ℚ) < (step : ℚ) := by exact_mod_cast hs
  have h1 : ((|T - L0| : Int) : ℚ) / (step : ℚ) ≤ ((n : Int) : ℚ) := Int.ceil_le.mp hn
  rw [div_le_iff₀ hq] at h1
  have h2 : |T - L0| ≤ (n : Int) * step := by exact_mod_cast h1
  constructor
  · rw [chassis_slewRepeat_eq_iterate]
    exact slewRepeat_reaches _ T step hs
      (fun l => slewUpdate_progress _ step l T hs (le_slewStep cfg mode l T step ha hr hd)) n L0 h2
  · rw [greenhat_slewRepeat_eq_iterate]
    exact slewRepeat_reaches _ T step hs
      (fun l => slewUpdate_progress _ step l T hs (le_slewStep cfg mode l T step ha hr hd)) n L0 h2

/-- Witness for `slew_converges`: steps `5`, `200`, `7`, from `-3` towards `20`
with `step = 5`: `ceil(23 / 5) = 5` calls suffice. -/
theorem slew_converges_witness :
    chassis.slewRepeat ⟨5, 200, 7, 0⟩ LINEAR 20 5 (-3) = 20
      ∧ greenhat.slewRepeat ⟨5, 200, 7, 0⟩ LINEAR 20 5 (-3) = 20 :=
  slew_converges ⟨5, 200, 7, 0⟩ LINEAR 20 (-3) 5 5 (by decide) (by decide) (by decide)
    (by decide) (by
      rw [Int.ceil_le]
      norm_num [abs_of_nonneg])

/-- C6 (failing input): with `accel_step = 5`, `min_speed = 20`, mode `LINEAR`,
last commanded speed `0` and requested speed `-50`, the call is accelerating in
a regulated mode and the slewed speed `-5` is below the floor in magnitude, yet
the call returns `+20`, not `-20`. -/
theorem slew_floor_drops_sign :
    |(0 : Int)| < |(-50 : Int)| ∧ LINEAR ≠ DISABLE
      ∧ (chassis.slew ⟨5, 200, 5, 20⟩ LINEAR 0 (-50)).lastSpeed = -5
      ∧ |(chassis.slew ⟨5, 200, 5, 20⟩ LINEAR 0 (-50)).lastSpeed| < 20
      ∧ (chassis.slew ⟨5, 200, 5, 20⟩ LINEAR 0 (-50)).ret = 20
      ∧ (chassis.slew ⟨5, 200, 5, 20⟩ LINEAR 0 (-50)).ret ≠ -20 := by
  decide

/-- C7 (failing input): with `accel_step = deccel_step = 5`, `min_speed = 20`,
mode `LINEAR`, last commanded speed `10` and requested speed `0`, the call is
decelerating, stores `5`, and returns the floor `20` instead of `5`. -/
theorem slew_floor_while_decelerating :
    |(0 : Int)| ≤ |(10 : Int)|
      ∧ (chassis.slew ⟨5, 5, 5, 20⟩ LINEAR 10 0).lastSpeed = 5
      ∧ (chassis.slew ⟨5, 5, 5, 20⟩ LINEAR 10 0).ret = 20
      ∧ (chassis.slew ⟨5, 5, 5, 20⟩ LINEAR 10 0).ret
          ≠ (chassis.slew ⟨5, 5, 5, 20⟩ LINEAR 10 0).lastSpeed := by
  decide

/-! ### Settling detector -/

/-- A call whose target differs from the stored one leaves the counter at 0
and reports driving. -/
theorem settleStep_new_target (st : Settling) (curr target : Int)
    (h : target ≠ st.lastTarget) :
    (settleStep st curr target).1 = true ∧ (settleStep st curr target).2.count = 0 := by
  simp [settleStep, h]

/-- C8: `isDriving` returns true on every call whose active target
(`linearTarget` in `LINEAR` mode, `turnTarget` otherwise) differs from the
target seen by the previous call, whatever the sensed position and the prior
counter; the same holds for the greenhat detector. -/
theorem isDriving_new_target (st : Settling) (s : Sample)
    (h : (if s.mode = LINEAR then s.linearTarget else s.turnTarget) ≠ st.lastTarget) :
    (chassis.isDriving st s).1 = true
      ∧ (greenhat.isDriving st s.curr s.mode s.linearTarget s.turnTarget).1 = true := by
  constructor
  · exact (settleStep_new_target st s.curr s.target h).1
  · exact (settleStep_new_target st s.curr _ h).1

/-- Witness for `isDriving_new_target`: counter at 7, position unchanged at
200, target changed from 200 to 300 in `LINEAR` mode. -/
theorem isDriving_new_target_witness :
    (chassis.isDriving ⟨7, 200, 200⟩ ⟨200, LINEAR, 300, 0⟩).1 = true
      ∧ (greenhat.isDriving ⟨7, 200, 200⟩ 200 LINEAR 300 0).1 = true :=
  isDriving_new_target ⟨7, 200, 200⟩ ⟨200, LINEAR, 300, 0⟩ (by decide)

/-- Before call `n` the statics hold the position and the target of the
preceding call (the initial zeros before the first call). -/
theorem settleState_last (samples : Nat → Sample) (n : Nat) :
    (chassis.settleState samples n).last = prevPosition samples n
      ∧ (chassis.settleState samples n).lastTarget = prevTarget samples n := by
  cases n with
  | zero => exact ⟨rfl, rfl⟩
  | succ k => exact ⟨rfl, rfl⟩

/-- The counter after call `n` is one more than before when the call is a
still call, and 0 otherwise. -/
theorem settleState_count_succ (samples : Nat → Sample) (n : Nat) :
    (chassis.settleState samples (n + 1)).count
      = if stillCall samples n then (chassis.settleState samples n).count + 1 else 0 := by
  obtain ⟨hl, ht⟩ := settleState_last samples n
  have hc : (chassis.settleState samples (n + 1)).count
      = if (samples n).target ≠ (chassis.settleState samples n).lastTarget then 0
        else if |(chassis.settleState samples n).last - (samples n).curr| < 3
          then (chassis.settleState samples n).count + 1 else 0 := rfl
  rw [hc, hl, ht, abs_sub_comm]
  unfold stillCall
  by_cases h1 : (samples n).target = prevTarget samples n
  · by_cases h2 : |(samples n).curr - prevPosition samples n| < 3
    · simp [h1, h2]
    · simp [h1, h2]
  · simp [h1]

/-- The value returned by call `n` is false exactly when the counter it leaves
exceeds 4. -/
theorem drivingAt_eq_false_iff (samples : Nat → Sample) (n : Nat) :
    chassis.drivingAt samples n = false ↔ 4 < (chassis.settleState samples (n + 1)).count := by
  have hd : chassis.drivingAt samples n
      = if (chassis.settleState samples (n + 1)).count > 4 then false else true := rfl
  rw [hd]
  by_cases h : (chassis.settleState samples (n + 1)).count > 4
  · simp [h]
  · simp only [if_neg h]
    constructor
    · intro hc; cases hc
    · intro hc; exact absurd hc h

/-- Before call `n` the counter is the length `k` of the run of still calls
that ends with call `n - 1`: the last `k` calls were still calls, and the call
before them, when there is one, was not. -/
theorem settleState_count_run (samples : Nat → Sample) (n : Nat) :
    ∃ k : Nat, (chassis.settleState samples n).count = (k : Int) ∧ k ≤ n
      ∧ (∀ j, j < k → stillCall samples (n - 1 - j))
      ∧ (k < n → ¬ stillCall samples (n - 1 - k)) := by
  induction n with
  | zero => exact ⟨0, rfl, le_refl 0, fun j hj => absurd hj (Nat.not_lt_zero j),
      fun h => absurd h (Nat.lt_irrefl 0)⟩
  | succ m ih =>
    obtain ⟨k, hk, hkm, hrun, hstop⟩ := ih
    by_cases hs : stillCall samples m
    · refine ⟨k + 1, ?_, by omega, ?_, ?_⟩
      · rw [settleState_count_succ, if_pos hs, hk]; push_cast; ring
      · intro j hj
        rcases Nat.eq_zero_or_pos j with h0 | hpos
        · subst h0; simpa using hs
        · have := hrun (j - 1) (by omega)
          have e : m + 1 - 1 - j = m - 1 - (j - 1) := by omega
          rw [e]; exact this
      · intro hlt
        have := hstop (by omega)
        have e : m + 1 - 1 - (k + 1) = m - 1 - k := by omega
        rw [e]; exact this
    · refine ⟨0, ?_, by omega, fun j hj => absurd hj (Nat.not_lt_zero j), ?_⟩
      · rw [settleState_count_succ, if_neg hs]; rfl
      · intro _
        simpa using hs

/-- C9: starting from the initial statics (`count = 0`, `last = 0`,
`lastTarget = 0`), call `n` of any sequence of `isDriving` calls returns false
if and only if it and the four calls immediately before it were all still calls
(position within 3 of the previously sampled position, target equal to the
target of the preceding call); equivalently it returns false exactly when the
counter exceeds 4, and the counter is the length of the current run of still
calls. -/
theorem isDriving_settled_iff (samples : Nat → Sample) (n : Nat) :
    (chassis.drivingAt samples n = false
        ↔ 4 ≤ n ∧ ∀ j, j ≤ 4 → stillCall samples (n - j))
      ∧ (chassis.drivingAt samples n = false
        ↔ 4 < (chassis.settleState samples (n + 1)).count)
      ∧ ∃ k : Nat, (chassis.settleState samples (n + 1)).count = (k : Int) ∧ k ≤ n + 1
          ∧ (∀ j, j < k → stillCall samples (n - j))
          ∧ (k ≤ n → ¬ stillCall samples (n - k)) := by
  obtain ⟨k, hk, hkn, hrun, hstop⟩ := settleState_count_run samples (n + 1)
  have hrun1 : ∀ j, j < k → stillCall samples (n - j) := fun j hj => by
    have := hrun j hj
    simpa using this
  have hstop1 : k ≤ n → ¬ stillCall samples (n - k) := fun h => by
    have := hstop (by omega)
    simpa using this
  refine ⟨?_, drivingAt_eq_false_iff samples n, ⟨k, hk, hkn, hrun1, hstop1⟩⟩
  rw [drivingAt_eq_false_iff, hk]
  constructor
  · intro h
    have h5 : 4 < k := by exact_mod_cast h
    exact ⟨by omega, fun j hj => hrun1 j (by omega)⟩
  · rintro ⟨h4, hall⟩
    by_contra hc
    have hk4 : k ≤ 4 := by
      have : ¬ (4 < k) := fun h => hc (by exact_mod_cast h)
      omega
    exact hstop1 (by omega) (hall k hk4)

/-! ### Odometry integrator -/

section OdometryTheorems

variable {α : Type} [LinearOrderedField α]

/-- A tick whose readings equal the stored previous samples adds nothing to
`global_x` and `global_y` and stores the same samples again. -/
theorem odomTick_steady (sin cos : α → α) (pi : α) (st : OdomState α)
    (left right rotation : α)
    (hl : st.prev_left_pos = left) (hr : st.prev_right_pos = right)
    (hp : st.prev_heading = rotation * pi / 180) :
    odomTick sin cos pi st (steadyReading left right rotation)
      = { st with heading := rotation * pi / 180 } := by
  cases st with
  | mk gx gy hd ph pl pr =>
    simp only at hl hr hp
    subst hl hr hp
    simp [odomTick, steadyReading]

/-- C10 (amended): a run of `N` ticks in which the wheel positions and the
heading reading do not change leaves the pose `(x, y, heading)` unchanged when
it starts from a state whose stored previous wheel positions, previous heading
and heading are those of the unchanged readings, as they are after any earlier
tick with the same readings. -/
theorem odom_stationary (sin cos : α → α) (pi : α) (st : OdomState α)
    (left right rotation : α) (N : Nat)
    (hl : st.prev_left_pos = left) (hr : st.prev_right_pos = right)
    (hp : st.prev_heading = rotation * pi / 180)
    (hh : st.heading = rotation * pi / 180) :
    (odomRun sin cos pi (steadyReading left right rotation) N st).pose = st.pose := by
  have hfix : odomTick sin cos pi st (steadyReading left right rotation) = st := by
    rw [odomTick_steady sin cos pi st left right rotation hl hr hp, ← hh]
  induction N with
  | zero => rfl
  | succ k ih =>
    rw [odomRun, hfix]
    exact ih

/-- Witness for `odom_stationary`: over the reals, three ticks from the initial
state of the integrator with both wheel positions reading 0 and the heading
reading 90 degrees, and three further ticks after a first tick that read wheel
positions 4 and 6 and heading 30 degrees. -/
theorem odom_stationary_witness :
    (odomRun Real.sin Real.cos Real.pi (steadyReading 0 0 90) 3 (odomInit Real.pi)).pose
        = (odomInit Real.pi).pose
      ∧ (odomRun Real.sin Real.cos Real.pi (steadyReading 4 6 30) 3
            (odomTick Real.sin Real.cos Real.pi (odomInit Real.pi) (steadyReading 4 6 30))).pose
          = (odomTick Real.sin Real.cos Real.pi (odomInit Real.pi) (steadyReading 4 6 30)).pose :=
  ⟨odom_stationary Real.sin Real.cos Real.pi (odomInit Real.pi) 0 0 90 3 rfl rfl
      (by simp only [odomInit]; ring) (by simp only [odomInit]; ring),
    odom_stationary Real.sin Real.cos Real.pi
      (odomTick Real.sin Real.cos Real.pi (odomInit Real.pi) (steadyReading 4 6 30)) 4 6 30 3
      rfl rfl rfl rfl⟩

end OdometryTheorems

/-- C10 (as stated, refuted): over the reals, one tick from the initial state of
the integrator with unchanging readings. With wheel positions 0 and heading
reading 0 degrees the pose heading goes from `pi/2` to `0`; with wheel positions
1 and heading reading 0 degrees `global_x` also leaves 0. -/
theorem odom_initial_tick_moves_pose :
    (odomRun Real.sin Real.cos Real.pi (steadyReading 0 0 0) 1 (odomInit Real.pi)).pose
        ≠ (odomInit Real.pi).pose
      ∧ (odomRun Real.sin Real.cos Real.pi (steadyReading 1 1 0) 1 (odomInit Real.pi)).global_x
        ≠ (odomInit Real.pi).global_x := by
  have hpi : Real.pi ≠ 0 := Real.pi_ne_zero
  constructor
  · intro h
    have h3 : (odomRun Real.sin Real.cos Real.pi (steadyReading 0 0 0) 1
        (odomInit Real.pi)).heading = (odomInit Real.pi).heading :=
      congrArg (fun p => p.2.2) h
    simp [odomRun, odomTick, steadyReading, odomInit] at h3
    exact div_ne_zero hpi two_ne_zero h3.symm
  · have hs : Real.sin (Real.pi / 4) ≠ 0 := by
      rw [Real.sin_pi_div_four]
      positivity
    have e : (0 : ℝ) - Real.pi / 2 = -(Real.pi / 2) := by ring
    have e2 : -(Real.pi / 2) / 2 = -(Real.pi / 4) := by ring
    simp only [odomRun, odomTick, steadyReading, odomInit]
    norm_num [e, e2, hpi, hs]

/-! ### Odometry over a sequence of readings -/

section OdometrySequenceTheorems

variable {α : Type} [LinearOrderedField α]

/-- A tick with `center_arc = 0` adds nothing to `global_x` and `global_y`, in
the arc branch as in the straight branch, and stores the sensor heading. -/
theorem odomTick_centerArc_zero (sin cos : α → α) (pi : α) (st : OdomState α)
    (rd : OdomReading α) (h : centerArc st rd = 0) :
    (odomTick sin cos pi st rd).global_x = st.global_x
      ∧ (odomTick sin cos pi st rd).global_y = st.global_y
      ∧ (odomTick sin cos pi st rd).heading = rd.rotation * pi / 180 := by
  have hx : (odomTick sin cos pi st rd).global_x
      = st.global_x + cos (rd.rotation * pi / 180)
          * (if rd.rotation * pi / 180 - st.prev_heading ≠ 0
              then 2 * sin ((rd.rotation * pi / 180 - st.prev_heading) / 2)
                * (centerArc st rd / (rd.rotation * pi / 180 - st.prev_heading))
              else centerArc st rd) := rfl
  have hy : (odomTick sin cos pi st rd).global_y
      = st.global_y + sin (rd.rotation * pi / 180)
          * (if rd.rotation * pi / 180 - st.prev_heading ≠ 0
              then 2 * sin ((rd.rotation * pi / 180 - st.prev_heading) / 2)
                * (centerArc st rd / (rd.rotation * pi / 180 - st.prev_heading))
              else centerArc st rd) := rfl
  refine ⟨?_, ?_, rfl⟩
  · rw [hx, h]; simp
  · rw [hy, h]; simp

/-- Over a sequence of ticks that all have `center_arc = 0`, `global_x` and
`global_y` keep their values and the heading ends at the last heading reading. -/
theorem odomTicks_arcsCancel (sin cos : α → α) (pi : α) (rds : List (OdomReading α)) :
    ∀ (st : OdomState α) (r : α), st.heading = r * pi / 180 →
      arcsCancel sin cos pi rds st →
      (odomTicks sin cos pi rds st).global_x = st.global_x
        ∧ (odomTicks sin cos pi rds st).global_y = st.global_y
        ∧ (odomTicks sin cos pi rds st).heading = lastRotation r rds * pi / 180 := by
  induction rds with
  | nil => intro st r hr _; exact ⟨rfl, rfl, hr⟩
  | cons rd rest ih =>
    intro st r _ hc
    obtain ⟨h0, hrest⟩ := hc
    obtain ⟨hx, hy, hh⟩ := odomTick_centerArc_zero sin cos pi st rd h0
    obtain ⟨ix, iy, ihd⟩ := ih (odomTick sin cos pi st rd) rd.rotation hh hrest
    exact ⟨by rw [odomTicks, ix, hx], by rw [odomTicks, iy, hy], by rw [odomTicks, ihd, lastRotation]⟩

/-- Over a sequence of ticks that all have `center_arc = 0`, from any state,
`global_x` and `global_y` keep their values, and after at least one tick the
heading is that of the last heading reading. -/
theorem odomTicks_arcsCancel_any (sin cos : α → α) (pi : α) (rds : List (OdomReading α))
    (st : OdomState α) (r : α) (hc : arcsCancel sin cos pi rds st) :
    (odomTicks sin cos pi rds st).global_x = st.global_x
      ∧ (odomTicks sin cos pi rds st).global_y = st.global_y
      ∧ (rds ≠ [] → (odomTicks sin cos pi rds st).heading = lastRotation r rds * pi / 180) := by
  cases rds with
  | nil => exact ⟨rfl, rfl, fun h => absurd rfl h⟩
  | cons rd rest =>
    obtain ⟨h0, hrest⟩ := hc
    obtain ⟨hx, hy, hh⟩ := odomTick_centerArc_zero sin cos pi st rd h0
    obtain ⟨ix, iy, ihd⟩ :=
      odomTicks_arcsCancel sin cos pi rest (odomTick sin cos pi st rd) rd.rotation hh hrest
    exact ⟨by rw [odomTicks, ix, hx], by rw [odomTicks, iy, hy],
      fun _ => by rw [odomTicks, ihd, lastRotation]⟩

/-- C11 (amended): odometry pure turn. For every sequence of odometry ticks in
each of which the left and right wheel displacements cancel (`center_arc = 0`)
while the heading reading rises from `r0` degrees to `r0 + 90` degrees,
`global_x` and `global_y` are unchanged and the pose heading ends at that of
the reading `r0 + 90`; it has changed by `pi / 2` when the sequence starts in a
state whose heading is that of the reading `r0`, as it is after any earlier
tick that read `r0`. -/
theorem odom_pure_turn (sin cos : α → α) (pi : α) (st : OdomState α)
    (rds : List (OdomReading α)) (r0 : α)
    (hcancel : arcsCancel sin cos pi rds st)
    (hturn : lastRotation r0 rds = r0 + 90) :
    (odomTicks sin cos pi rds st).global_x = st.global_x
      ∧ (odomTicks sin cos pi rds st).global_y = st.global_y
      ∧ (odomTicks sin cos pi rds st).heading = (r0 + 90) * pi / 180
      ∧ (st.heading = r0 * pi / 180 →
          (odomTicks sin cos pi rds st).heading = st.heading + pi / 2) := by
  obtain ⟨hx, hy, hh⟩ := odomTicks_arcsCancel_any sin cos pi rds st r0 hcancel
  have hne : rds ≠ [] := by
    intro h
    rw [h] at hturn
    simp only [lastRotation] at hturn
    have h90 : (90 : α) = 0 := by linarith
    norm_num at h90
  have hfin : (odomTicks sin cos pi rds st).heading = (r0 + 90) * pi / 180 := by
    rw [hh hne, hturn]
  refine ⟨hx, hy, hfin, fun hstart => ?_⟩
  rw [hfin, hstart]
  ring

/-- Witness for `odom_pure_turn`: over the reals, from the pose `(3, 4)` with
heading reading 0 degrees and wheel positions 0, two ticks reading wheel
positions `(-1, 1)` at 45 degrees and `(-2, 2)` at 90 degrees. -/
theorem odom_pure_turn_witness :
    (odomTicks Real.sin Real.cos Real.pi
        [⟨1, -1, 1, -1, 45⟩, ⟨2, -2, 2, -2, 90⟩] ⟨3, 4, 0, 0, 0, 0⟩).heading
        = (0 : ℝ) + Real.pi / 2
      ∧ (odomTicks Real.sin Real.cos Real.pi
        [⟨1, -1, 1, -1, 45⟩, ⟨2, -2, 2, -2, 90⟩] ⟨3, 4, 0, 0, 0, 0⟩).global_x = 3
      ∧ (odomTicks Real.sin Real.cos Real.pi
        [⟨1, -1, 1, -1, 45⟩, ⟨2, -2, 2, -2, 90⟩] ⟨3, 4, 0, 0, 0, 0⟩).global_y = 4 :=
  have h := odom_pure_turn Real.sin Real.cos Real.pi ⟨3, 4, 0, 0, 0, 0⟩
    [⟨1, -1, 1, -1, 45⟩, ⟨2, -2, 2, -2, 90⟩] 0
    (by norm_num [arcsCancel, centerArc, odomTick])
    (by norm_num [lastRotation])
  ⟨h.2.2.2 (by norm_num), h.1, h.2.1⟩

end OdometrySequenceTheorems

/-- C11 (as stated, refuted): over the reals, from the initial state of the
integrator, three ticks whose wheel displacements cancel (wheel positions
`(0, 0)`, `(-1, 1)`, `(-2, 2)`) while the heading reading rises from 0 to 45 to
90 degrees: `global_x` and `global_y` stay 0, but the pose heading is `pi / 2`
before and after, so it has changed by 0 and not by `pi / 2`. -/
theorem odom_pure_turn_from_initial_state :
    arcsCancel Real.sin Real.cos Real.pi
        [⟨0, 0, 0, 0, 0⟩, ⟨1, -1, 1, -1, 45⟩, ⟨2, -2, 2, -2, 90⟩] (odomInit Real.pi)
      ∧ lastRotation (0 : ℝ) [⟨0, 0, 0, 0, 0⟩, ⟨1, -1, 1, -1, 45⟩, ⟨2, -2, 2, -2, 90⟩] = 0 + 90
      ∧ (odomTicks Real.sin Real.cos Real.pi
          [⟨0, 0, 0, 0, 0⟩, ⟨1, -1, 1, -1, 45⟩, ⟨2, -2, 2, -2, 90⟩] (odomInit Real.pi)).heading
        = (odomInit Real.pi).heading
      ∧ (odomTicks Real.sin Real.cos Real.pi
          [⟨0, 0, 0, 0, 0⟩, ⟨1, -1, 1, -1, 45⟩, ⟨2, -2, 2, -2, 90⟩] (odomInit Real.pi)).heading
        ≠ (odomInit Real.pi).heading + Real.pi / 2 := by
  have hc : arcsCancel Real.sin Real.cos Real.pi
      [⟨0, 0, 0, 0, 0⟩, ⟨1, -1, 1, -1, 45⟩, ⟨2, -2, 2, -2, 90⟩] (odomInit Real.pi) := by
    norm_num [arcsCancel, centerArc, odomTick, odomInit]
  have hl : lastRotation (0 : ℝ)
      [⟨0, 0, 0, 0, 0⟩, ⟨1, -1, 1, -1, 45⟩, ⟨2, -2, 2, -2, 90⟩] = 0 + 90 := by
    norm_num [lastRotation]
  have hh : (odomTicks Real.sin Real.cos Real.pi
      [⟨0, 0, 0, 0, 0⟩, ⟨1, -1, 1, -1, 45⟩, ⟨2, -2, 2, -2, 90⟩] (odomInit Real.pi)).heading
      = (odomInit Real.pi).heading := by
    rw [(odomTicks_arcsCancel_any Real.sin Real.cos Real.pi _ (odomInit Real.pi) 0 hc).2.2
      (by simp), hl]
    simp only [odomInit]
    ring
  refine ⟨hc, hl, hh, ?_⟩
  rw [hh]
  intro h
  have hpi : Real.pi / 2 = 0 := by linarith
  exact div_ne_zero Real.pi_ne_zero two_ne_zero hpi

/-! ### Teleop calls, motion starts and the control loop -/

section ChassisTheorems

variable {α : Type} [LinearOrderedField α] [FloorRing α]

/-- Truncation of an integer-valued `double` returns that integer. -/
theorem truncInt_intCast (k : Int) : truncInt (k : α) = k := by
  unfold truncInt
  split_ifs <;> simp

/-- While the mode is `DISABLE` the control loop ticks make no motor call and
change nothing. -/
theorem chassisTicks_disabled (sin sqrt : α → α) (pi : α) (cfg : ChassisConfig α)
    (rds : List TickReading) (st : Chassis α) (h : st.mode = DISABLE) :
    chassis.chassisTicks sin sqrt pi cfg rds st = (st, []) := by
  induction rds with
  | nil => rfl
  | cons rd rest ih =>
    have h1 : chassis.chassisTick sin sqrt pi cfg st rd = (st, []) := by
      unfold chassis.chassisTick
      rw [if_neg]
      rw [h]
      decide
    simp only [chassis.chassisTicks, h1, ih, List.append_nil]

/-- C13: each of `tank`, `arcade` and `holonomic`, from any prior state, sets
the mode to `DISABLE` and leaves `linearTarget`, `turnTarget`, `vectorAngle` and
`maxSpeed` unchanged; any number of control-loop ticks that follow make no
motor call and leave the whole state, `lastSpeed` and `prevError` included, as
the teleop call left it. -/
theorem teleop_forces_idle (sin sqrt : α → α) (pi : α) (cfg : ChassisConfig α)
    (st : Chassis α) (a b c : Int) (rds : List TickReading) :
    ((chassis.tank st a b).1.mode = DISABLE
        ∧ (chassis.tank st a b).1.linearTarget = st.linearTarget
        ∧ (chassis.tank st a b).1.turnTarget = st.turnTarget
        ∧ (chassis.tank st a b).1.vectorAngle = st.vectorAngle
        ∧ (chassis.tank st a b).1.maxSpeed = st.maxSpeed
        ∧ chassis.chassisTicks sin sqrt pi cfg rds (chassis.tank st a b).1
            = ((chassis.tank st a b).1, []))
      ∧ ((chassis.arcade st a b).1.mode = DISABLE
        ∧ (chassis.arcade st a b).1.linearTarget = st.linearTarget
        ∧ (chassis.arcade st a b).1.turnTarget = st.turnTarget
        ∧ (chassis.arcade st a b).1.vectorAngle = st.vectorAngle
        ∧ (chassis.arcade st a b).1.maxSpeed = st.maxSpeed
        ∧ chassis.chassisTicks sin sqrt pi cfg rds (chassis.arcade st a b).1
            = ((chassis.arcade st a b).1, []))
      ∧ ((chassis.holonomic st a b c).1.mode = DISABLE
        ∧ (chassis.holonomic st a b c).1.linearTarget = st.linearTarget
        ∧ (chassis.holonomic st a b c).1.turnTarget = st.turnTarget
        ∧ (chassis.holonomic st a b c).1.vectorAngle = st.vectorAngle
        ∧ (chassis.holonomic st a b c).1.maxSpeed = st.maxSpeed
        ∧ chassis.chassisTicks sin sqrt pi cfg rds (chassis.holonomic st a b c).1
            = ((chassis.holonomic st a b c).1, [])) :=
  ⟨⟨rfl, rfl, rfl, rfl, rfl, chassisTicks_disabled sin sqrt pi cfg rds _ rfl⟩,
    ⟨rfl, rfl, rfl, rfl, rfl, chassisTicks_disabled sin sqrt pi cfg rds _ rfl⟩,
    ⟨rfl, rfl, rfl, rfl, rfl, chassisTicks_disabled sin sqrt pi cfg rds _ rfl⟩⟩

/-- C14: `moveAsync(d, max)` sets `linearTarget` to `d * distance_constant`
truncated to an integer, `mode` to `LINEAR`, `vectorAngle` to 0 and `maxSpeed`
to `max`; with `distance_constant = 100`, `move(2, 80)` sets the target to 200. -/
theorem moveAsync_sets_target (cfg : ChassisConfig α) (st : Chassis α) (d : α) (max : Int) :
    (chassis.moveAsync cfg st d max).linearTarget = truncInt (d * (cfg.distance_constant : α))
      ∧ (chassis.moveAsync cfg st d max).mode = LINEAR
      ∧ (chassis.moveAsync cfg st d max).vectorAngle = 0
      ∧ (chassis.moveAsync cfg st d max).maxSpeed = max
      ∧ (chassis.move { cfg with distance_constant := 100 } st 2 80).linearTarget = 200 := by
  refine ⟨rfl, rfl, rfl, rfl, ?_⟩
  have h : (chassis.move { cfg with distance_constant := 100 } st 2 80).linearTarget
      = truncInt ((2 : α) * ((100 : Int) : α)) := rfl
  have e : (2 : α) * ((100 : Int) : α) = ((200 : Int) : α) := by push_cast; norm_num
  rw [h, e, truncInt_intCast]

/-- C15 (amended): every motion-start call (`moveAsync`, `turnAsync`,
`turnAbsoluteAsync`, `moveHoloAsync`) leaves the slew limiter's `lastSpeed` and
the control loop's `prevError` as they were before the call. -/
theorem motion_start_keeps_slew_state (pi : α) (cfg : ChassisConfig α) (st : Chassis α)
    (sp angle rotation currentPos : α) (max : Int) :
    ((chassis.moveAsync cfg st sp max).lastSpeed = st.lastSpeed
        ∧ (chassis.moveAsync cfg st sp max).prevError = st.prevError)
      ∧ ((chassis.turnAsync cfg st rotation sp max).lastSpeed = st.lastSpeed
        ∧ (chassis.turnAsync cfg st rotation sp max).prevError = st.prevError)
      ∧ ((chassis.turnAbsoluteAsync cfg st currentPos rotation sp max).lastSpeed = st.lastSpeed
        ∧ (chassis.turnAbsoluteAsync cfg st currentPos rotation sp max).prevError
            = st.prevError)
      ∧ ((chassis.moveHoloAsync pi cfg st sp angle max).lastSpeed = st.lastSpeed
        ∧ (chassis.moveHoloAsync pi cfg st sp angle max).prevError = st.prevError) :=
  ⟨⟨rfl, rfl⟩, ⟨rfl, rfl⟩, ⟨rfl, rfl⟩, ⟨rfl, rfl⟩⟩

end ChassisTheorems

/-- C12: `holonomic(x, y, z)` commands `frontLeft`, `frontRight`, `backLeft`,
`backRight` with `x+y+z`, `x-y-z`, `x+y-z`, `x-y+z`, each sent to the motor as
a voltage of 120 times the command, and leaves `lastSpeed` and the control
loop's `prevError` untouched; `holonomic(50, 0, 0)` sends `120 * 50` to each of
the four motors. -/
theorem holonomic_commands {α : Type} (st : Chassis α) (x y z : Int) :
    (chassis.holonomic st x y z).2
        = [chassis.motorVoltage Motor.frontLeft (x + y + z),
           chassis.motorVoltage Motor.frontRight (x - y - z),
           chassis.motorVoltage Motor.backLeft (x + y - z),
           chassis.motorVoltage Motor.backRight (x - y + z)]
      ∧ (chassis.holonomic st x y z).2
        = [Command.moveVoltage Motor.frontLeft (120 * (x + y + z)),
           Command.moveVoltage Motor.frontRight (120 * (x - y - z)),
           Command.moveVoltage Motor.backLeft (120 * (x + y - z)),
           Command.moveVoltage Motor.backRight (120 * (x - y + z))]
      ∧ (chassis.holonomic st x y z).1.lastSpeed = st.lastSpeed
      ∧ (chassis.holonomic st x y z).1.prevError = st.prevError
      ∧ (chassis.holonomic st 50 0 0).2
        = [Command.moveVoltage Motor.frontLeft (120 * 50),
           Command.moveVoltage Motor.frontRight (120 * 50),
           Command.moveVoltage Motor.backLeft (120 * 50),
           Command.moveVoltage Motor.backRight (120 * 50)] := by
  refine ⟨rfl, ?_, rfl, rfl, ?_⟩
  · simp only [chassis.holonomic, chassis.motorVoltage, mul_comm]
  · simp [chassis.holonomic, chassis.motorVoltage]

/-- C15 (as stated, refuted): with `lastSpeed = 50` and `prevError = 7` left by
an earlier motion, `moveAsync(2, 80)` with `distance_constant = 100` leaves
`lastSpeed = 50` and `prevError = 7`; neither is 0 after the call. -/
theorem moveAsync_does_not_clear_slew :
    (chassis.moveAsync (⟨⟨5, 200, 5, 0⟩, 100, 1, 1, 0, 1, 0, 1, 0, 0, 200⟩ : ChassisConfig ℝ)
        ⟨ANGULAR, 0, 90, 0, 100, 50, 7⟩ 2 80).lastSpeed = 50
      ∧ (chassis.moveAsync (⟨⟨5, 200, 5, 0⟩, 100, 1, 1, 0, 1, 0, 1, 0, 0, 200⟩ : ChassisConfig ℝ)
        ⟨ANGULAR, 0, 90, 0, 100, 50, 7⟩ 2 80).lastSpeed ≠ 0
      ∧ (chassis.moveAsync (⟨⟨5, 200, 5, 0⟩, 100, 1, 1, 0, 1, 0, 1, 0, 0, 200⟩ : ChassisConfig ℝ)
        ⟨ANGULAR, 0, 90, 0, 100, 50, 7⟩ 2 80).prevError ≠ 0 := by
  refine ⟨rfl, ?_, ?_⟩
  · show (50 : Int) ≠ 0
    decide
  · show (7 : Int) ≠ 0
    decide

/-! ### Pure-pursuit regulation -/

section PurePursuitTheorems

variable {α : Type} [LinearOrderedField α]

/-- The clamp of `translational` (pid.cpp lines 95-96) leaves the angular speed
no larger in magnitude than the linear speed it is compared with. -/
theorem clamp_abs_le (a l : α) :
    |(if |a| > |l| then |l| * a / |a| else a)| ≤ |l| := by
  split_ifs with h
  · have ha : 0 < |a| := lt_of_le_of_lt (abs_nonneg l) h
    rw [abs_div, abs_mul, abs_abs, abs_abs, mul_div_assoc, div_self (ne_of_gt ha), mul_one]
  · exact not_lt.mp h

/-- The angular speed after the clamp is bounded by the linear speed before the
rescale. -/
theorem translationalTrace_clamp (pi : α) (g : PidGains α) (direction : Int) (thru : Bool)
    (maxSpeed : α) (st : TransState α) (lin_error ang_error : α) :
    |(translationalTrace pi g direction thru maxSpeed st lin_error ang_error).ang_speed|
      ≤ |(translationalTrace pi g direction thru maxSpeed st lin_error ang_error).lin_clamp| :=
  clamp_abs_le _ _

/-- The linear speed after the rescale is `maxSpeed * lin / (|lin| + |ang|)` with
`lin` the linear speed before the rescale and `ang` the clamped angular speed. -/
theorem translationalTrace_lin_speed (pi : α) (g : PidGains α) (direction : Int)
    (thru : Bool) (maxSpeed : α) (st : TransState α) (lin_error ang_error : α) :
    (translationalTrace pi g direction thru maxSpeed st lin_error ang_error).lin_speed
      = maxSpeed
          * (translationalTrace pi g direction thru maxSpeed st lin_error ang_error).lin_clamp
          / (|(translationalTrace pi g direction thru maxSpeed st lin_error ang_error).lin_clamp|
              + |(translationalTrace pi g direction thru maxSpeed st lin_error
                    ang_error).ang_speed|) :=
  rfl

/-- C16 (amended): for every linear error, angular error, regulator state,
gains, direction, thru flag and maxSpeed, the angular speed `ang` that enters
the result of `translational()` satisfies `|ang| <= |lin'|`, where `lin'` is the
linear speed after direction handling and thru override and before the
rescale; the result is formed as `left = lin - ang`, `right = lin + ang` from
the rescaled `lin = maxSpeed * lin' / (|lin'| + |ang|)`. -/
theorem translational_clamp_before_rescale (pi : α) (g : PidGains α) (direction : Int)
    (thru : Bool) (maxSpeed : α) (st : TransState α) (lin_error ang_error : α) :
    |(translationalTrace pi g direction thru maxSpeed st lin_error ang_error).ang_speed|
        ≤ |(translationalTrace pi g direction thru maxSpeed st lin_error ang_error).lin_clamp|
      ∧ (translationalTrace pi g direction thru maxSpeed st lin_error ang_error).lin_speed
        = maxSpeed
            * (translationalTrace pi g direction thru maxSpeed st lin_error ang_error).lin_clamp
            / (|(translationalTrace pi g direction thru maxSpeed st lin_error
                    ang_error).lin_clamp|
                + |(translationalTrace pi g direction thru maxSpeed st lin_error
                    ang_error).ang_speed|)
      ∧ translational pi g direction thru maxSpeed st lin_error ang_error
        = ((translationalTrace pi g direction thru maxSpeed st lin_error ang_error).lin_speed
            - (translationalTrace pi g direction thru maxSpeed st lin_error ang_error).ang_speed,
           (translationalTrace pi g direction thru maxSpeed st lin_error ang_error).lin_speed
            + (translationalTrace pi g direction thru maxSpeed st lin_error
                ang_error).ang_speed) :=
  ⟨clamp_abs_le _ _, rfl, rfl⟩

/-- C17 (amended): for every input of `translational()` with `maxSpeed > 0` for
which the final linear speed `lin` and angular speed `ang` are both nonzero,
`|lin| = maxSpeed * |lin'| / (|lin'| + |ang|)` with `lin'` the linear speed
before the rescale, so `maxSpeed / 2 <= |lin| <= maxSpeed`, and
`|lin| + |ang| = maxSpeed` holds exactly when `|lin'| + |ang| = maxSpeed`. -/
theorem translational_rescale (pi : α) (g : PidGains α) (direction : Int) (thru : Bool)
    (maxSpeed : α) (st : TransState α) (lin_error ang_error : α)
    (hm : 0 < maxSpeed)
    (hl : (translationalTrace pi g direction thru maxSpeed st lin_error ang_error).lin_speed ≠ 0)
    (ha : (translationalTrace pi g direction thru maxSpeed st lin_error ang_error).ang_speed ≠ 0) :
    |(translationalTrace pi g direction thru maxSpeed st lin_error ang_error).lin_speed|
        = maxSpeed
            * |(translationalTrace pi g direction thru maxSpeed st lin_error ang_error).lin_clamp|
            / (|(translationalTrace pi g direction thru maxSpeed st lin_error
                    ang_error).lin_clamp|
                + |(translationalTrace pi g direction thru maxSpeed st lin_error
                    ang_error).ang_speed|)
      ∧ maxSpeed / 2
        ≤ |(translationalTrace pi g direction thru maxSpeed st lin_error ang_error).lin_speed|
      ∧ |(translationalTrace pi g direction thru maxSpeed st lin_error ang_error).lin_speed|
        ≤ maxSpeed
      ∧ (|(translationalTrace pi g direction thru maxSpeed st lin_error ang_error).lin_speed|
            + |(translationalTrace pi g direction thru maxSpeed st lin_error
                  ang_error).ang_speed| = maxSpeed
          ↔ |(translationalTrace pi g direction thru maxSpeed st lin_error
                  ang_error).lin_clamp|
              + |(translationalTrace pi g direction thru maxSpeed st lin_error
                  ang_error).ang_speed| = maxSpeed) := by
  have hclamp := translationalTrace_clamp pi g direction thru maxSpeed st lin_error ang_error
  have hlin := translationalTrace_lin_speed pi g direction thru maxSpeed st lin_error ang_error
  generalize (translationalTrace pi g direction thru maxSpeed st lin_error ang_error).lin_speed
    = lin at hl hlin ⊢
  generalize (translationalTrace pi g direction thru maxSpeed st lin_error ang_error).ang_speed
    = ang at ha hclamp hlin ⊢
  generalize (translationalTrace pi g direction thru maxSpeed st lin_error ang_error).lin_clamp
    = l at hclamp hlin ⊢
  have hA : 0 < |ang| := abs_pos.mpr ha
  have hl0 : l ≠ 0 := by
    intro h0
    apply hl
    rw [hlin, h0]
    simp
  have hL : 0 < |l| := abs_pos.mpr hl0
  have hS : 0 < |l| + |ang| := add_pos hL hA
  have habs : |lin| = maxSpeed * |l| / (|l| + |ang|) := by
    rw [hlin, abs_div, abs_mul, abs_of_pos hm, abs_of_pos hS]
  refine ⟨habs, ?_, ?_, ?_⟩
  · rw [habs, le_div_iff₀ hS]
    nlinarith
  · rw [habs, div_le_iff₀ hS]
    nlinarith
  · rw [habs]
    constructor
    · intro h
      have h1 : maxSpeed * |l| + |ang| * (|l| + |ang|) = maxSpeed * (|l| + |ang|) := by
        field_simp at h
        linarith
      have h2 : |ang| * (|l| + |ang|) = |ang| * maxSpeed := by linarith
      exact mul_left_cancel₀ (ne_of_gt hA) h2
    · intro h
      rw [h]
      field_simp
      linarith

end PurePursuitTheorems

/-- C16 (as stated, refuted): over the reals, with `linearKP = 1`,
`angularKP = 100`, no integral or derivative gain, forward direction, no thru,
`maxSpeed = 30`, zero regulator state, linear error 100 and angular error 1/2,
the final linear speed is 20 and the angular speed 50, so `|ang| > |lin|`; the
returned speeds are `left = -30`, `right = 70` with
`|right - left| = 100 > 40 = |right + left|`. -/
theorem translational_ang_exceeds_lin :
    (translationalTrace Real.pi (⟨1, 100, 0, 0, 0, 0, 1, 1, 1⟩ : PidGains ℝ) 2 false 30
        TransState.init 100 (1 / 2)).lin_speed = 20
      ∧ (translationalTrace Real.pi (⟨1, 100, 0, 0, 0, 0, 1, 1, 1⟩ : PidGains ℝ) 2 false 30
        TransState.init 100 (1 / 2)).ang_speed = 50
      ∧ translational Real.pi (⟨1, 100, 0, 0, 0, 0, 1, 1, 1⟩ : PidGains ℝ) 2 false 30
        TransState.init 100 (1 / 2) = (-30, 70)
      ∧ ¬ |(translationalTrace Real.pi (⟨1, 100, 0, 0, 0, 0, 1, 1, 1⟩ : PidGains ℝ) 2 false 30
            TransState.init 100 (1 / 2)).ang_speed|
          ≤ |(translationalTrace Real.pi (⟨1, 100, 0, 0, 0, 0, 1, 1, 1⟩ : PidGains ℝ) 2 false 30
            TransState.init 100 (1 / 2)).lin_speed|
      ∧ ¬ |(70 : ℝ) - (-30)| ≤ |(70 : ℝ) + (-30)| := by
  have hl : (translationalTrace Real.pi (⟨1, 100, 0, 0, 0, 0, 1, 1, 1⟩ : PidGains ℝ) 2 false 30
      TransState.init 100 (1 / 2)).lin_speed = 20 := by
    norm_num [translationalTrace, TransState.init, pid, pidReset]
  have ha : (translationalTrace Real.pi (⟨1, 100, 0, 0, 0, 0, 1, 1, 1⟩ : PidGains ℝ) 2 false 30
      TransState.init 100 (1 / 2)).ang_speed = 50 := by
    norm_num [translationalTrace, TransState.init, pid, pidReset]
  refine ⟨hl, ha, ?_, ?_, ?_⟩
  · have hlr : translational Real.pi (⟨1, 100, 0, 0, 0, 0, 1, 1, 1⟩ : PidGains ℝ) 2 false 30
        TransState.init 100 (1 / 2)
        = ((translationalTrace Real.pi (⟨1, 100, 0, 0, 0, 0, 1, 1, 1⟩ : PidGains ℝ) 2 false 30
              TransState.init 100 (1 / 2)).lin_speed
            - (translationalTrace Real.pi (⟨1, 100, 0, 0, 0, 0, 1, 1, 1⟩ : PidGains ℝ) 2 false 30
              TransState.init 100 (1 / 2)).ang_speed,
           (translationalTrace Real.pi (⟨1, 100, 0, 0, 0, 0, 1, 1, 1⟩ : PidGains ℝ) 2 false 30
              TransState.init 100 (1 / 2)).lin_speed
            + (translationalTrace Real.pi (⟨1, 100, 0, 0, 0, 0, 1, 1, 1⟩ : PidGains ℝ) 2 false 30
              TransState.init 100 (1 / 2)).ang_speed) := rfl
    rw [hlr, hl, ha]
    norm_num
  · rw [hl, ha]
    norm_num
  · norm_num

/-- C17 (as stated, refuted): over the reals, with `angularKP = 100`, thru mode,
`maxSpeed = 100`, zero regulator state and angular error 1/2, the final linear
speed is `200/3` and the angular speed 50, both nonzero, and
`|lin| + |ang| = 350/3`, not 100. -/
theorem translational_sum_not_maxSpeed :
    (0 : ℝ) < 100
      ∧ (translationalTrace Real.pi (⟨1, 100, 0, 0, 0, 0, 1, 1, 1⟩ : PidGains ℝ) 2 true 100
        TransState.init 100 (1 / 2)).lin_speed = 200 / 3
      ∧ (translationalTrace Real.pi (⟨1, 100, 0, 0, 0, 0, 1, 1, 1⟩ : PidGains ℝ) 2 true 100
        TransState.init 100 (1 / 2)).ang_speed = 50
      ∧ |(translationalTrace Real.pi (⟨1, 100, 0, 0, 0, 0, 1, 1, 1⟩ : PidGains ℝ) 2 true 100
            TransState.init 100 (1 / 2)).lin_speed|
          + |(translationalTrace Real.pi (⟨1, 100, 0, 0, 0, 0, 1, 1, 1⟩ : PidGains ℝ) 2 true 100
            TransState.init 100 (1 / 2)).ang_speed| ≠ 100 := by
  have hl : (translationalTrace Real.pi (⟨1, 100, 0, 0, 0, 0, 1, 1, 1⟩ : PidGains ℝ) 2 true 100
      TransState.init 100 (1 / 2)).lin_speed = 200 / 3 := by
    norm_num [translationalTrace, TransState.init, pid, pidReset]
  have ha : (translationalTrace Real.pi (⟨1, 100, 0, 0, 0, 0, 1, 1, 1⟩ : PidGains ℝ) 2 true 100
      TransState.init 100 (1 / 2)).ang_speed = 50 := by
    norm_num [translationalTrace, TransState.init, pid, pidReset]
  refine ⟨by norm_num, hl, ha, ?_⟩
  rw [hl, ha, abs_of_pos (by norm_num : (0 : ℝ) < 200 / 3),
    abs_of_pos (by norm_num : (0 : ℝ) < 50)]
  norm_num

/-- Witness for `translational_rescale`: over the reals, linear error 60 and
angular error 2/5 with `linearKP = 1`, `angularKP = 100`, `maxSpeed = 100`: the
speeds before the rescale are 60 and 40, which sum to `maxSpeed`, and the final
speeds are 60 and 40 as well. -/
theorem translational_rescale_witness :
    |(translationalTrace Real.pi (⟨1, 100, 0, 0, 0, 0, 1, 1, 1⟩ : PidGains ℝ) 2 false 100
          TransState.init 60 (2 / 5)).lin_speed|
        + |(translationalTrace Real.pi (⟨1, 100, 0, 0, 0, 0, 1, 1, 1⟩ : PidGains ℝ) 2 false 100
          TransState.init 60 (2 / 5)).ang_speed| = 100 :=
  (translational_rescale Real.pi (⟨1, 100, 0, 0, 0, 0, 1, 1, 1⟩ : PidGains ℝ) 2 false 100
      TransState.init 60 (2 / 5) (by norm_num)
      (by norm_num [translationalTrace, TransState.init, pid, pidReset])
      (by norm_num [translationalTrace, TransState.init, pid, pidReset])).2.2.2.mpr
    (by norm_num [translationalTrace, TransState.init, pid, pidReset])

/-- C18 (failing input): over the reals, reverse mode (`direction = 3`), no
thru, `maxSpeed = 100`, all proportional gains 1, zero regulator state, linear
error 10 and angular error 1. The direction block computes the adjusted
angular error `1 - pi`, but the angular speed that enters the result is 1, the
regulated raw error, not the regulated adjusted error `1 - pi`; the returned
speeds are `-1011/11` and `-989/11`. -/
theorem translational_reverse_regulates_raw_error :
    (translationalTrace Real.pi (⟨1, 1, 0, 0, 0, 0, 1, 1, 1⟩ : PidGains ℝ) 3 false 100
        TransState.init 10 1).ang_error = 1 - Real.pi
      ∧ (translationalTrace Real.pi (⟨1, 1, 0, 0, 0, 0, 1, 1, 1⟩ : PidGains ℝ) 3 false 100
        TransState.init 10 1).ang_speed = (pid (1 : ℝ) 0 0 1 0 0).speed
      ∧ (translationalTrace Real.pi (⟨1, 1, 0, 0, 0, 0, 1, 1, 1⟩ : PidGains ℝ) 3 false 100
        TransState.init 10 1).ang_speed = 1
      ∧ (pid (1 - Real.pi) 0 0 1 0 0).speed = 1 - Real.pi
      ∧ (translationalTrace Real.pi (⟨1, 1, 0, 0, 0, 0, 1, 1, 1⟩ : PidGains ℝ) 3 false 100
        TransState.init 10 1).ang_speed ≠ (pid (1 - Real.pi) 0 0 1 0 0).speed
      ∧ translational Real.pi (⟨1, 1, 0, 0, 0, 0, 1, 1, 1⟩ : PidGains ℝ) 3 false 100
        TransState.init 10 1 = (-1011 / 11, -989 / 11) := by
  have hp : (pid (1 - Real.pi) 0 0 1 0 0).speed = 1 - Real.pi := by
    simp [pid, pidReset]
  have ha : (translationalTrace Real.pi (⟨1, 1, 0, 0, 0, 0, 1, 1, 1⟩ : PidGains ℝ) 3 false 100
      TransState.init 10 1).ang_speed = 1 := by
    norm_num [translationalTrace, TransState.init, pid, pidReset]
  refine ⟨?_, ?_, ha, hp, ?_, ?_⟩
  · norm_num [translationalTrace, TransState.init, pid, pidReset]
  · rw [ha]; norm_num [pid, pidReset]
  · rw [ha, hp]
    intro h
    have : Real.pi = 0 := by linarith
    exact Real.pi_ne_zero this
  · simp only [translational]
    norm_num [translationalTrace, TransState.init, pid, pidReset]

/-! ### Holonomic wheel projection -/

/-- The two wheel factors `sin(pi/4 - a)` and `sin(pi/4 + a)` have squares that
sum to 1. -/
theorem holo_factors_sq (a : ℝ) :
    Real.sin (Real.pi / 4 - a) ^ 2 + Real.sin (Real.pi / 4 + a) ^ 2 = 1 := by
  have e : Real.pi / 4 + a = Real.pi / 2 - (Real.pi / 4 - a) := by ring
  rw [e, Real.sin_pi_div_two_sub]
  exact Real.sin_sq_add_cos_sq _

/-- The larger of the magnitudes of the two wheel factors is positive. -/
theorem holo_largest_pos (a : ℝ) :
    0 < (if |Real.sin (Real.pi / 4 - a)| > |Real.sin (Real.pi / 4 + a)|
          then |Real.sin (Real.pi / 4 - a)| else |Real.sin (Real.pi / 4 + a)|) := by
  have hsq := holo_factors_sq a
  split_ifs with h
  · exact lt_of_le_of_lt (abs_nonneg _) h
  · rcases (abs_nonneg (Real.sin (Real.pi / 4 + a))).lt_or_eq with hpos | hzero
    · exact hpos
    · exfalso
      have hb : Real.sin (Real.pi / 4 + a) = 0 := abs_eq_zero.mp hzero.symm
      have hf : Real.sin (Real.pi / 4 - a) = 0 := by
        have : |Real.sin (Real.pi / 4 - a)| ≤ 0 := by
          rw [hzero]; exact not_lt.mp h
        exact abs_eq_zero.mp (le_antisymm this (abs_nonneg _))
      rw [hb, hf] at hsq
      norm_num at hsq

/-- Scaling a factor `f` by `s / L` with `|f| <= L` and `L > 0` gives a value of
magnitude at most `|s|`, and of magnitude exactly `|s|` when `|f| = L`. -/
theorem scaled_factor_abs (f s L : ℝ) (hL : 0 < L) (hf : |f| ≤ L) :
    |f * (s / L)| ≤ |s| ∧ (|f| = L → |f * (s / L)| = |s|) := by
  have e : |f * (s / L)| = |f| * |s| / L := by
    rw [abs_mul, abs_div, abs_of_pos hL, mul_div_assoc]
  constructor
  · rw [e, div_le_iff₀ hL]
    nlinarith [abs_nonneg s]
  · intro h
    rw [e, h]
    field_simp

/-- C19: holonomic wheel projection, over the reals and before the conversion
to `int`. For every vector angle and every slewed speed, the scaled factors
`frontVector` (frontLeft, backRight) and `backVector` (backLeft, frontRight)
both have magnitude at most `|speed|`, and the one whose factor is the larger in
magnitude has magnitude exactly `|speed|`. -/
theorem holo_projection_bounded (vectorAngle : ℝ) (speed : Int) :
    |(chassis.holoVectors Real.sin Real.pi vectorAngle speed).1| ≤ |(speed : ℝ)|
      ∧ |(chassis.holoVectors Real.sin Real.pi vectorAngle speed).2| ≤ |(speed : ℝ)|
      ∧ (|Real.sin (Real.pi / 4 + vectorAngle)| ≤ |Real.sin (Real.pi / 4 - vectorAngle)| →
          |(chassis.holoVectors Real.sin Real.pi vectorAngle speed).1| = |(speed : ℝ)|)
      ∧ (|Real.sin (Real.pi / 4 - vectorAngle)| ≤ |Real.sin (Real.pi / 4 + vectorAngle)| →
          |(chassis.holoVectors Real.sin Real.pi vectorAngle speed).2| = |(speed : ℝ)|) := by
  have hL := holo_largest_pos vectorAngle
  simp only [chassis.holoVectors]
  generalize Real.sin (Real.pi / 4 - vectorAngle) = f at hL ⊢
  generalize Real.sin (Real.pi / 4 + vectorAngle) = b at hL ⊢
  have hfL : |f| ≤ (if |f| > |b| then |f| else |b|) := by
    split_ifs with h
    · exact le_refl _
    · exact not_lt.mp h
  have hbL : |b| ≤ (if |f| > |b| then |f| else |b|) := by
    split_ifs with h
    · exact le_of_lt h
    · exact le_refl _
  obtain ⟨hf1, hf2⟩ := scaled_factor_abs f (speed : ℝ) _ hL hfL
  obtain ⟨hb1, hb2⟩ := scaled_factor_abs b (speed : ℝ) _ hL hbL
  refine ⟨hf1, hb1, fun h => hf2 ?_, fun h => hb2 ?_⟩
  · split_ifs with h1
    · rfl
    · exact le_antisymm (not_lt.mp h1) h
  · split_ifs with h1
    · exact absurd h (not_le.mpr h1)
    · rfl

/-- Witness for `holo_projection_bounded`: at a vector angle of `pi/4` the
front factor is `sin 0 = 0` and the back factor `sin (pi/2) = 1`, so the back
pair runs at the full speed 7. -/
theorem holo_projection_bounded_witness :
    |(chassis.holoVectors Real.sin Real.pi (Real.pi / 4) 7).2| = |((7 : Int) : ℝ)| :=
  (holo_projection_bounded (Real.pi / 4) 7).2.2.2 (by
    have e1 : Real.pi / 4 - Real.pi / 4 = 0 := by ring
    have e2 : Real.pi / 4 + Real.pi / 4 = Real.pi / 2 := by ring
    rw [e1, e2, Real.sin_zero, Real.sin_pi_div_two]
    norm_num)

/-! ### Slew state update -/

/-- C20: with a non-negative selected step, the last commanded speed stored by
`slew(requested)`, chassis and greenhat alike, is `last + step` if
`requested > last + step`, `last - step` if `requested < last - step`, and
`requested` otherwise, where `step` is `accel_step` when `|last| < |requested|`
in a mode other than `DISABLE`, `arc_step` when `|last| < |requested|` in mode
`DISABLE`, and `deccel_step` when `|last| >= |requested|`; the stored speed lies
between the old stored speed and the requested speed. -/
theorem slew_update_is_clamp (cfg : SlewConfig) (mode last requested : Int)
    (h : 0 ≤ slewStep cfg mode last requested) :
    (chassis.slew cfg mode last requested).lastSpeed
        = (if requested > last + slewStep cfg mode last requested
            then last + slewStep cfg mode last requested
            else if requested < last - slewStep cfg mode last requested
              then last - slewStep cfg mode last requested
              else requested)
      ∧ (greenhat.slew cfg mode last requested).lastSpeed
        = (chassis.slew cfg mode last requested).lastSpeed
      ∧ (|last| < |requested| → mode ≠ DISABLE →
          slewStep cfg mode last requested = cfg.accel_step)
      ∧ (|last| < |requested| → mode = DISABLE →
          slewStep cfg mode last requested = cfg.arc_step)
      ∧ (|requested| ≤ |last| → slewStep cfg mode last requested = cfg.deccel_step)
      ∧ min last requested ≤ (chassis.slew cfg mode last requested).lastSpeed
      ∧ (chassis.slew cfg mode last requested).lastSpeed ≤ max last requested := by
  refine ⟨rfl, rfl, ?_, ?_, ?_, ?_, ?_⟩
  · intro h1 h2
    simp [slewStep, h1, h2]
  · intro h1 h2
    simp [slewStep, h1, h2]
  · intro h1
    simp [slewStep, not_lt.mpr h1]
  · have e : (chassis.slew cfg mode last requested).lastSpeed
        = slewUpdate (slewStep cfg mode last requested) last requested := rfl
    rw [e]
    unfold slewUpdate
    split_ifs <;> simp only [min_le_iff] <;> omega
  · have e : (chassis.slew cfg mode last requested).lastSpeed
        = slewUpdate (slewStep cfg mode last requested) last requested := rfl
    rw [e]
    unfold slewUpdate
    split_ifs <;> simp only [le_max_iff] <;> omega

/-- Witness for `slew_update_is_clamp`: steps `5`, `200`, `7`, mode `LINEAR`,
from 0 towards 50: the step is `accel_step = 5` and the stored speed is 5. -/
theorem slew_update_is_clamp_witness :
    (chassis.slew ⟨5, 200, 7, 0⟩ LINEAR 0 50).lastSpeed = 5
      ∧ (greenhat.slew ⟨5, 200, 7, 0⟩ LINEAR 0 50).lastSpeed = 5
      ∧ slewStep ⟨5, 200, 7, 0⟩ LINEAR 0 50 = 5 := by
  have h := slew_update_is_clamp ⟨5, 200, 7, 0⟩ LINEAR 0 50 (by decide)
  have hs := h.2.2.1 (by decide) (by decide)
  refine ⟨?_, ?_, hs⟩
  · rw [h.1]; decide
  · rw [h.2.1, h.1]; decide

/-! ### Arc motions -/

section ArcProfileTheorems

variable {α : Type} [LinearOrderedField α]

/-- The profile of `arc` multiplies `scaled_speed` by `arcFactor`. -/
theorem arcScaled_eq_mul (type : Int) (s : α) (time_step arc_length : Int) :
    arcScaled type s time_step arc_length = s * arcFactor type time_step arc_length := by
  unfold arcScaled arcFactor
  split_ifs <;> simp

/-- The profile of `arc` commutes with negation. -/
theorem arcScaled_neg (type : Int) (s : α) (time_step arc_length : Int) :
    arcScaled type (-s) time_step arc_length = -arcScaled type s time_step arc_length := by
  rw [arcScaled_eq_mul, arcScaled_eq_mul, neg_mul]

/-- The `motorVelocity` calls of `arc` for negated ticks are the negated calls. -/
theorem arcCalls_neg (gearing : α) (type : Int) (ticks : List (Int × Int)) :
    chassis.arcCalls gearing type (ticks.map (fun t => (-t.1, -t.2)))
      = (chassis.arcCalls gearing type ticks).map Command.neg := by
  have hz : ∀ m : Motor, Command.neg (chassis.motorVelocity gearing m 0)
      = chassis.motorVelocity gearing m 0 := fun m => by
    simp [chassis.motorVelocity, Command.neg]
  have hv : ∀ (m : Motor) (v : Int), chassis.motorVelocity gearing m (-v)
      = Command.neg (chassis.motorVelocity gearing m v) := fun m v => by
    simp only [chassis.motorVelocity, Command.neg, Int.cast_neg]
    congr 1
    ring
  have hmid : (ticks.map (fun t => (-t.1, -t.2))).flatMap (fun t =>
        [chassis.motorVelocity gearing Motor.leftMotors t.1,
         chassis.motorVelocity gearing Motor.rightMotors t.2])
      = (ticks.flatMap (fun t =>
          [chassis.motorVelocity gearing Motor.leftMotors t.1,
           chassis.motorVelocity gearing Motor.rightMotors t.2])).map Command.neg := by
    induction ticks with
    | nil => rfl
    | cons t rest ih =>
      simp only [List.map_cons, List.flatMap_cons, List.map_append, ih, hv, List.map_nil]
  unfold chassis.arcCalls
  rw [hmid]
  simp only [List.map_append]
  split_ifs <;> simp [hz]

end ArcProfileTheorems

section ArcTheorems

variable {α : Type} [LinearOrderedField α] [FloorRing α]

/-- Truncation towards zero commutes with negation. -/
theorem truncInt_neg (x : α) : truncInt (-x) = -truncInt x := by
  unfold truncInt
  rcases lt_trichotomy x 0 with h | h | h
  · rw [if_pos (by linarith), if_neg (by linarith), Int.floor_neg]
  · subst h; simp
  · rw [if_neg (by linarith), if_pos (by linarith), Int.ceil_neg]

/-- A reversed iteration of the loop of `arc` makes the same call of `slew` as
the forward one and passes the negated values to `motorVelocity`. -/
theorem arcTick_reversed (cfg : ChassisConfig α) (mirror : Bool) (arc_length : Int) (rad : α)
    (max type time_step lastSpeed : Int) :
    chassis.arcTick cfg mirror true arc_length rad max type time_step lastSpeed
      = { slewed := (chassis.arcTick cfg mirror false arc_length rad max type time_step
            lastSpeed).slewed,
          left := -(chassis.arcTick cfg mirror false arc_length rad max type time_step
            lastSpeed).left,
          right := -(chassis.arcTick cfg mirror false arc_length rad max type time_step
            lastSpeed).right } := by
  simp only [chassis.arcTick, if_true, Bool.false_eq_true, if_false]
  cases mirror
  · simp only [Bool.false_eq_true, if_false, Int.cast_neg, neg_mul, arcScaled_neg,
      truncInt_neg]
  · simp only [if_true, Int.cast_neg, neg_mul, arcScaled_neg, truncInt_neg]

/-- The reversed loop of `arc` runs the same iterations as the forward loop,
ends with the same `lastSpeed` and issues the negated ticks. -/
theorem arcLoop_reversed (cfg : ChassisConfig α) (mirror : Bool) (arc_length : Int) (rad : α)
    (max type : Int) :
    ∀ (n : Nat) (time_step lastSpeed : Int), (arc_length - time_step).toNat = n →
      chassis.arcLoop cfg mirror true arc_length rad max type time_step lastSpeed
        = ((chassis.arcLoop cfg mirror false arc_length rad max type time_step lastSpeed).1,
           (chassis.arcLoop cfg mirror false arc_length rad max type time_step lastSpeed).2.map
              (fun t => (-t.1, -t.2))) := by
  intro n
  induction n using Nat.strong_induction_on with
  | _ n ih =>
    intro time_step lastSpeed hn
    rw [chassis.arcLoop.eq_1 cfg mirror true, chassis.arcLoop.eq_1 cfg mirror false]
    by_cases h : time_step < arc_length
    · simp only [if_pos h]
      have hrec := ih (arc_length - (time_step + 10)).toNat (by omega) (time_step + 10)
        (chassis.arcTick cfg mirror false arc_length rad max type time_step
          lastSpeed).slewed.lastSpeed rfl
      rw [arcTick_reversed]
      simp only [hrec, List.map_cons]
    · simp only [if_neg h, List.map_nil]

/-- The loop of `arc` terminates after `ceil((arc_length - time_step) / 10)`
iterations. -/
theorem arcLoop_length (cfg : ChassisConfig α) (mirror reversed : Bool) (arc_length : Int)
    (rad : α) (max type : Int) :
    ∀ (n : Nat) (time_step lastSpeed : Int), (arc_length - time_step).toNat = n →
      (chassis.arcLoop cfg mirror reversed arc_length rad max type time_step lastSpeed).2.length
        = ((arc_length - time_step + 9) / 10).toNat := by
  intro n
  induction n using Nat.strong_induction_on with
  | _ n ih =>
    intro time_step lastSpeed hn
    rw [chassis.arcLoop.eq_1]
    by_cases h : time_step < arc_length
    · simp only [if_pos h, List.length_cons]
      rw [ih (arc_length - (time_step + 10)).toNat (by omega) (time_step + 10) _ rfl]
      omega
    · simp only [if_neg h, List.length_nil]
      omega

/-- C21: arc reversal. For every `arc_length = L > 0`, mirror flag, shape factor,
`max`, type, configuration and initial state, `arc(mirror, -L, rad, max, type)`
runs the same number of ticks as `arc(mirror, L, rad, max, type)`, namely
`ceil(L / 10)`, passes tick
for tick the negated left and right values to `motorVelocity`, so that every
velocity command is the negated one, and leaves the same globals. -/
theorem arc_reversal (cfg : ChassisConfig α) (st : Chassis α) (mirror : Bool) (L : Int)
    (rad : α) (max type : Int) (hL : 0 < L) :
    (chassis.arc cfg st mirror (-L) rad max type).2.length
        = (chassis.arc cfg st mirror L rad max type).2.length
      ∧ (chassis.arc cfg st mirror L rad max type).2.length = ((L + 9) / 10).toNat
      ∧ (chassis.arc cfg st mirror (-L) rad max type).2
        = (chassis.arc cfg st mirror L rad max type).2.map (fun t => (-t.1, -t.2))
      ∧ chassis.arcCalls cfg.gearing type (chassis.arc cfg st mirror (-L) rad max type).2
        = (chassis.arcCalls cfg.gearing type
            (chassis.arc cfg st mirror L rad max type).2).map Command.neg
      ∧ (chassis.arc cfg st mirror (-L) rad max type).1
        = (chassis.arc cfg st mirror L rad max type).1 := by
  have hneg : -L < 0 := by omega
  have hpos : ¬ L < 0 := by omega
  have hrev := arcLoop_reversed cfg mirror L rad max type (L - 0).toNat 0 st.lastSpeed rfl
  have h2 : (chassis.arc cfg st mirror (-L) rad max type).2
      = (chassis.arc cfg st mirror L rad max type).2.map (fun t => (-t.1, -t.2)) := by
    simp only [chassis.arc, hneg, hpos, decide_True, decide_False, if_true, if_false, neg_neg,
      hrev]
  have h1 : (chassis.arc cfg st mirror (-L) rad max type).1
      = (chassis.arc cfg st mirror L rad max type).1 := by
    simp only [chassis.arc, hneg, hpos, decide_True, decide_False, if_true, if_false, neg_neg,
      hrev]
  refine ⟨?_, ?_, h2, ?_, h1⟩
  · rw [h2, List.length_map]
  · have hlen := arcLoop_length cfg mirror false L rad max type (L - 0).toNat 0 st.lastSpeed rfl
    simp only [chassis.arc, hpos, decide_False, if_false]
    rw [hlen, sub_zero]
  · rw [h2, arcCalls_neg]

/-- Witness for `arc_reversal`: the arcs of length 30 and -30 with
`arc_step = 5`, `arcKP = 1`, shape factor `1/2`, `max = 100`, type 3, from rest. -/
theorem arc_reversal_witness :
    (chassis.arc (⟨⟨5, 200, 5, 0⟩, 100, 1, 1, 0, 1, 0, 1, 0, 0, 200⟩ : ChassisConfig ℝ)
        Chassis.init false (-30) (1 / 2) 100 3).2
      = (chassis.arc (⟨⟨5, 200, 5, 0⟩, 100, 1, 1, 0, 1, 0, 1, 0, 0, 200⟩ : ChassisConfig ℝ)
        Chassis.init false 30 (1 / 2) 100 3).2.map (fun t => (-t.1, -t.2)) :=
  (arc_reversal (⟨⟨5, 200, 5, 0⟩, 100, 1, 1, 0, 1, 0, 1, 0, 0, 200⟩ : ChassisConfig ℝ)
    Chassis.init false 30 (1 / 2) 100 3 (by decide)).2.2.1

end ArcTheorems

/-! ### Arc profiles -/

section ArcFactorTheorems

variable {α : Type} [LinearOrderedField α]

/-- For a positive arc length the type 2 factor is `|arc_length - 2 * time_step|`
divided by the arc length. -/
theorem arcFactor_two (t L : Int) (hL : 0 < L) :
    (arcFactor 2 t L : α) = |(L : α) - 2 * (t : α)| / (L : α) := by
  have hLa : (0 : α) < (L : α) := by exact_mod_cast hL
  have e : (2 : α) * (1 / 2 - (t : α) / (L : α)) = ((L : α) - 2 * (t : α)) / (L : α) := by
    field_simp
    ring
  have hf : (arcFactor 2 t L : α) = |2 * (1 / 2 - (t : α) / (L : α))| := by
    simp [arcFactor]
  rw [hf, e, abs_div, abs_of_pos hLa]

/-- C22 (amended): for every arc length `L > 0` the type 2 factor applied to the
scaled side is symmetric about the midpoint, lies in `[0, 1]` for
`0 <= t <= L`, is 1 at `t = 0`, decreases over the first half of the motion
down to its minimum 0 at `t = L/2` and increases over the second half; type 1
has the factor `t/L` and type 3 the factor `1 - t/L`, and the scaled speed is
`speed * rad` times the factor. -/
theorem arc_profile_factors (L t t1 t2 : Int) (s : α) (hL : 0 < L) :
    (arcFactor 2 (L - t) L : α) = arcFactor 2 t L
      ∧ (0 : α) ≤ arcFactor 2 t L
      ∧ (0 ≤ t → t ≤ L → (arcFactor 2 t L : α) ≤ 1)
      ∧ (arcFactor 2 0 L : α) = 1
      ∧ (2 * t = L → (arcFactor 2 t L : α) = 0)
      ∧ (t1 ≤ t2 → 2 * t2 ≤ L → (arcFactor 2 t2 L : α) ≤ arcFactor 2 t1 L)
      ∧ (L ≤ 2 * t1 → t1 ≤ t2 → (arcFactor 2 t1 L : α) ≤ arcFactor 2 t2 L)
      ∧ (arcFactor 1 t L : α) = (t : α) / (L : α)
      ∧ (arcFactor 3 t L : α) = 1 - (t : α) / (L : α)
      ∧ arcScaled 1 s t L = s * ((t : α) / (L : α))
      ∧ arcScaled 2 s t L = s * arcFactor 2 t L
      ∧ arcScaled 3 s t L = s * (1 - (t : α) / (L : α)) := by
  have hLa : (0 : α) < (L : α) := by exact_mod_cast hL
  refine ⟨?_, ?_, ?_, ?_, ?_, ?_, ?_, ?_, ?_, ?_, ?_, ?_⟩
  · rw [arcFactor_two _ _ hL, arcFactor_two _ _ hL]
    congr 1
    push_cast
    rw [← abs_neg]
    congr 1
    ring
  · rw [arcFactor_two _ _ hL]
    exact div_nonneg (abs_nonneg _) (le_of_lt hLa)
  · intro h0 h1
    have h0a : (0 : α) ≤ (t : α) := by exact_mod_cast h0
    have h1a : (t : α) ≤ (L : α) := by exact_mod_cast h1
    rw [arcFactor_two _ _ hL, div_le_one hLa, abs_le]
    constructor <;> linarith
  · rw [arcFactor_two _ _ hL]
    simp only [Int.cast_zero, mul_zero, sub_zero]
    rw [abs_of_pos hLa, div_self (ne_of_gt hLa)]
  · intro h
    have ha : (2 : α) * (t : α) = (L : α) := by exact_mod_cast h
    rw [arcFactor_two _ _ hL, ← ha]
    simp
  · intro h12 h2
    have h12a : (t1 : α) ≤ (t2 : α) := by exact_mod_cast h12
    have h2a : (2 : α) * (t2 : α) ≤ (L : α) := by exact_mod_cast h2
    rw [arcFactor_two _ _ hL, arcFactor_two _ _ hL,
      abs_of_nonneg (by linarith), abs_of_nonneg (by linarith)]
    apply div_le_div_of_nonneg_right _ (le_of_lt hLa)
    linarith
  · intro h1 h12
    have h12a : (t1 : α) ≤ (t2 : α) := by exact_mod_cast h12
    have h1a : (L : α) ≤ (2 : α) * (t1 : α) := by exact_mod_cast h1
    rw [arcFactor_two _ _ hL, arcFactor_two _ _ hL,
      abs_of_nonpos (by linarith), abs_of_nonpos (by linarith)]
    apply div_le_div_of_nonneg_right _ (le_of_lt hLa)
    linarith
  · simp [arcFactor]
  · simp [arcFactor]
  · simp [arcScaled]
  · rw [arcScaled_eq_mul]
  · simp [arcScaled]

end ArcFactorTheorems

/-- Witness for `arc_profile_factors`: over the reals with `L = 100`, the type 2
factor at `t = 50` is 0, and its value at `t = 50` is at most its value at
`t = 20`. -/
theorem arc_profile_factors_witness :
    (arcFactor 2 50 100 : ℝ) = 0 ∧ (arcFactor 2 50 100 : ℝ) ≤ arcFactor 2 20 100 :=
  have h := arc_profile_factors (100 : Int) 50 20 50 (1 : ℝ) (by decide)
  ⟨h.2.2.2.2.1 (by decide), h.2.2.2.2.2.1 (by decide) (by decide)⟩

/-- C22 (as stated, refuted): over the reals with `L = 100`, the type 2 factor is
1 at `t = 0`, `1/2` at `t = 25` and 0 at the midpoint `t = 50`: it does not
increase over the first half and its value at the midpoint is not its maximum. -/
theorem arc_type_two_not_tent :
    (arcFactor 2 0 100 : ℝ) = 1
      ∧ (arcFactor 2 25 100 : ℝ) = 1 / 2
      ∧ (arcFactor 2 50 100 : ℝ) = 0
      ∧ ¬ (arcFactor 2 0 100 : ℝ) ≤ arcFactor 2 25 100
      ∧ ¬ (arcFactor 2 0 100 : ℝ) ≤ arcFactor 2 50 100 := by
  have h0 : (arcFactor 2 0 100 : ℝ) = 1 := by
    rw [arcFactor_two _ _ (by decide)]; norm_num
  have h25 : (arcFactor 2 25 100 : ℝ) = 1 / 2 := by
    rw [arcFactor_two _ _ (by decide)]
    push_cast
    rw [abs_of_pos (by norm_num)]
    norm_num
  have h50 : (arcFactor 2 50 100 : ℝ) = 0 := by
    rw [arcFactor_two _ _ (by decide)]; norm_num
  refine ⟨h0, h25, h50, ?_, ?_⟩
  · rw [h0, h25]; norm_num
  · rw [h0, h50]; norm_num

/-! ### Mode invariant -/

section ModeTheorems

variable {α : Type} [LinearOrderedField α] [FloorRing α]

/-- After any single call the mode is one of the three constants, and it is
`ANGULAR` only with `vectorAngle = 0`, whatever the state before the call. -/
theorem Call.apply_mode (pi : α) (cfg : ChassisConfig α) (st : Chassis α) (c : Call α) :
    ((c.apply pi cfg st).mode = DISABLE ∨ (c.apply pi cfg st).mode = LINEAR
        ∨ (c.apply pi cfg st).mode = ANGULAR)
      ∧ ((c.apply pi cfg st).mode = ANGULAR → (c.apply pi cfg st).vectorAngle = 0) := by
  cases c with
  | moveAsync sp max => exact ⟨Or.inr (Or.inl rfl), fun _ => rfl⟩
  | turnAsync rotation sp max => exact ⟨Or.inr (Or.inr rfl), fun _ => rfl⟩
  | turnAbsoluteAsync currentPos rotation sp max => exact ⟨Or.inr (Or.inr rfl), fun _ => rfl⟩
  | moveHoloAsync distance angle max =>
    refine ⟨Or.inr (Or.inl rfl), fun h => ?_⟩
    exact absurd (show (1 : Int) = -1 from h) (by decide)
  | fast sp max =>
    refine ⟨Or.inl rfl, fun h => ?_⟩
    exact absurd (show (0 : Int) = -1 from h) (by decide)
  | arc mirror arc_length rad max type =>
    refine ⟨Or.inl rfl, fun h => ?_⟩
    exact absurd (show (0 : Int) = -1 from h) (by decide)
  | tank left_speed right_speed =>
    refine ⟨Or.inl rfl, fun h => ?_⟩
    exact absurd (show (0 : Int) = -1 from h) (by decide)
  | arcade vertical horizontal =>
    refine ⟨Or.inl rfl, fun h => ?_⟩
    exact absurd (show (0 : Int) = -1 from h) (by decide)
  | holonomic x y z =>
    refine ⟨Or.inl rfl, fun h => ?_⟩
    exact absurd (show (0 : Int) = -1 from h) (by decide)

/-- A sequence of calls preserves the mode invariant. -/
theorem runCalls_mode (pi : α) (cfg : ChassisConfig α) (calls : List (Call α)) :
    ∀ st : Chassis α,
      ((st.mode = DISABLE ∨ st.mode = LINEAR ∨ st.mode = ANGULAR)
        ∧ (st.mode = ANGULAR → st.vectorAngle = 0)) →
      (((runCalls pi cfg calls st).mode = DISABLE ∨ (runCalls pi cfg calls st).mode = LINEAR
          ∨ (runCalls pi cfg calls st).mode = ANGULAR)
        ∧ ((runCalls pi cfg calls st).mode = ANGULAR
            → (runCalls pi cfg calls st).vectorAngle = 0)) := by
  induction calls with
  | nil => intro st h; exact h
  | cons c rest ih => intro st _; exact ih _ (Call.apply_mode pi cfg st c)

/-- C23: mode invariant. In every state reached from the initial state
(`mode = DISABLE`, `vectorAngle = 0`) by a sequence of `moveAsync`, `turnAsync`,
`turnAbsoluteAsync`, `moveHoloAsync`, `fast`, `arc`, `tank`, `arcade` and
`holonomic` calls, the mode is one of `DISABLE`, `LINEAR`, `ANGULAR`, and
`mode = ANGULAR` implies `vectorAngle = 0`. -/
theorem mode_invariant (pi : α) (cfg : ChassisConfig α) (calls : List (Call α)) :
    ((runCalls pi cfg calls Chassis.init).mode = DISABLE
        ∨ (runCalls pi cfg calls Chassis.init).mode = LINEAR
        ∨ (runCalls pi cfg calls Chassis.init).mode = ANGULAR)
      ∧ ((runCalls pi cfg calls Chassis.init).mode = ANGULAR
          → (runCalls pi cfg calls Chassis.init).vectorAngle = 0) :=
  runCalls_mode pi cfg calls Chassis.init ⟨Or.inl rfl, fun _ => rfl⟩

end ModeTheorems

/-! ### Division safety -/

/-- When the linear speed before the rescale is 0 the clamp makes the angular
speed 0 as well, and `scaling_factor` is 0. -/
theorem translationalTrace_scaling_zero {α : Type} [LinearOrderedField α] (pi : α)
    (g : PidGains α) (direction : Int) (thru : Bool) (maxSpeed : α) (st : TransState α)
    (lin_error ang_error : α)
    (h : (translationalTrace pi g direction thru maxSpeed st lin_error ang_error).lin_clamp = 0) :
    (translationalTrace pi g direction thru maxSpeed st lin_error ang_error).scaling_factor
      = 0 := by
  have hc := translationalTrace_clamp pi g direction thru maxSpeed st lin_error ang_error
  have hs : (translationalTrace pi g direction thru maxSpeed st lin_error ang_error).scaling_factor
      = |(translationalTrace pi g direction thru maxSpeed st lin_error ang_error).lin_clamp|
        + |(translationalTrace pi g direction thru maxSpeed st lin_error ang_error).ang_speed| :=
    rfl
  rw [h, abs_zero] at hc
  rw [hs, h, abs_zero, le_antisymm hc (abs_nonneg _), add_zero]

/-- C24 (failing input): over the reals, with all proportional gains 1, forward
direction, no thru, `maxSpeed = 100`, zero regulator state, linear error 0 and
angular error 1, the regulated linear speed is 0, the clamp reduces the angular
speed from 1 to 0, and the divisor `scaling_factor` is 0. -/
theorem translational_scaling_factor_zero :
    (pid (0 : ℝ) 0 0 1 0 0).speed = 0
      ∧ (pid (1 : ℝ) 0 0 1 0 0).speed = 1
      ∧ (translationalTrace Real.pi (⟨1, 1, 0, 0, 0, 0, 1, 1, 1⟩ : PidGains ℝ) 2 false 100
        TransState.init 0 1).lin_clamp = 0
      ∧ (translationalTrace Real.pi (⟨1, 1, 0, 0, 0, 0, 1, 1, 1⟩ : PidGains ℝ) 2 false 100
        TransState.init 0 1).ang_speed = 0
      ∧ (translationalTrace Real.pi (⟨1, 1, 0, 0, 0, 0, 1, 1, 1⟩ : PidGains ℝ) 2 false 100
        TransState.init 0 1).scaling_factor = 0 := by
  refine ⟨?_, ?_, ?_, ?_, ?_⟩
  · norm_num [pid, pidReset]
  · norm_num [pid, pidReset]
  · norm_num [translationalTrace, TransState.init, pid, pidReset]
  · norm_num [translationalTrace, TransState.init, pid, pidReset]
  · norm_num [translationalTrace, TransState.init, pid, pidReset]

/-- C25: division safety of the holonomic projection. For every real vector
angle, `sin(pi/4 - a)` and `sin(pi/4 + a)` are not both 0, the divisor
`largestVector` is strictly positive, and it is the value by which the speed
is divided in the control-loop tick. -/
theorem holo_largestVector_pos (vectorAngle : ℝ) (speed : Int) :
    ¬ (Real.sin (Real.pi / 4 - vectorAngle) = 0 ∧ Real.sin (Real.pi / 4 + vectorAngle) = 0)
      ∧ 0 < chassis.largestVector Real.sin Real.pi vectorAngle
      ∧ chassis.largestVector Real.sin Real.pi vectorAngle ≠ 0
      ∧ chassis.holoVectors Real.sin Real.pi vectorAngle speed
        = (Real.sin (Real.pi / 4 - vectorAngle)
              * ((speed : ℝ) / chassis.largestVector Real.sin Real.pi vectorAngle),
           Real.sin (Real.pi / 4 + vectorAngle)
              * ((speed : ℝ) / chassis.largestVector Real.sin Real.pi vectorAngle)) := by
  have hpos : 0 < chassis.largestVector Real.sin Real.pi vectorAngle :=
    holo_largest_pos vectorAngle
  refine ⟨?_, hpos, ne_of_gt hpos, rfl⟩
  rintro ⟨hf, hb⟩
  have hsq := holo_factors_sq vectorAngle
  rw [hf, hb] at hsq
  norm_num at hsq

end ARMS
